import Mathlib

/-!
Verification development for the pidgin-chime protocol plugin
(`src/chime.c`, `src/chat.c`): a shallow embedding of the session /
message-synchronization core, with theorems settling the spec claims.

JSON values handled by json-glib are modelled by the inductive `Json`;
hash tables are modelled by association lists / lists of keys; glib
string helpers (`g_strsplit`, `g_strjoinv`, `strstr`) are modelled by
executable list-of-character functions.  All recursive string scanners
use structural recursion (on an explicit fuel bound where the C code
skips ahead), so every definition evaluates by `decide`/`rfl`.
-/

namespace Chime

/-- JSON values as produced by json-glib's parser.  Object member names
are unique (json-glib's `JsonObject` is a hash table); `jobj` stores the
members as an association list and lookups take the first binding. -/
inductive Json where
  | jnull : Json
  | jbool : Bool → Json
  | jnum : Int → Json
  | jstr : String → Json
  | jarr : List Json → Json
  | jobj : List (String × Json) → Json

/-- Model of `json_node_get_object`: the member list if the node is an
object, otherwise NULL. -/
def json_node_get_object : Json → Option (List (String × Json))
  | .jobj ms => some ms
  | _ => none

/-- Model of `json_object_get_member`: lookup of a member by name
(NULL when absent). -/
def json_object_get_member (ms : List (String × Json)) (name : String) : Option Json :=
  match ms with
  | [] => none
  | (k, v) :: rest => if k = name then some v else json_object_get_member rest name

/-- Model of `json_node_get_string`: the held string if the node is a
string value, otherwise NULL. -/
def json_node_get_string : Json → Option String
  | .jstr s => some s
  | _ => none

/-- Model of `parse_string` from src/chime.c:41-65, with the C out-parameter
`*res` threaded explicitly: the pair is (return value, final value of `*res`).
The guards mirror the C code in order: NULL parent, non-object parent,
missing member, non-string member each return FALSE without touching `*res`. -/
def parse_string (parent : Option Json) (name : String) (res : String) : Bool × String :=
  match parent with
  | none => (false, res)
  | some p =>
    match json_node_get_object p with
    | none => (false, res)
    | some obj =>
      match json_object_get_member obj name with
      | none => (false, res)
      | some node =>
        match json_node_get_string node with
        | none => (false, res)
        | some str => (true, str)

/-- Convenience form of `parse_string` for a non-NULL parent node, returning
the parsed string as an `Option` (used by the call sites that test the
boolean and then read `*res`). -/
def parseStr (p : Json) (name : String) : Option String :=
  match json_node_get_object p with
  | none => none
  | some obj =>
    match json_object_get_member obj name with
    | none => none
    | some node => json_node_get_string node

theorem parse_string_eq_parseStr (p : Json) (name : String) (res : String) :
    parse_string (some p) name res =
      match parseStr p name with
      | none => (false, res)
      | some s => (true, s) := by
  cases p with
  | jobj ms =>
    simp only [parse_string, parseStr, json_node_get_object]
    cases json_object_get_member ms name with
    | none => rfl
    | some node => cases node <;> rfl
  | jnull => rfl
  | jbool b => rfl
  | jnum n => rfl
  | jstr s => rfl
  | jarr xs => rfl

/-! ### glib string helpers

`g_strsplit`, `g_strjoinv` and `strstr` modelled on lists of characters.
`g_strsplit` splits at leftmost non-overlapping occurrences of the
delimiter; with `max_tokens` reached the remainder of the string is kept
in the last token; the empty string splits into an empty vector (glib's
documented special case).  All recursions are structural. -/

/-- Boolean prefix test on character lists (the comparison done by
`strncmp(s, t, strlen t)` and by glib's split scanning). -/
def pfx : List Char → List Char → Bool
  | [], _ => true
  | _ :: _, [] => false
  | a :: as, b :: bs => a == b && pfx as bs

/-- Leftmost occurrence of `pat`: `some (pre, post)` when the scanned list
is `pre ++ pat ++ post` with no occurrence of `pat` starting inside `pre`.
An empty `pat` never matches (glib refuses an empty delimiter). -/
def findSplit (pat : List Char) (s : List Char) : Option (List Char × List Char) :=
  if !pat.isEmpty && pfx pat s then some ([], s.drop pat.length)
  else
    match s with
    | [] => none
    | c :: cs =>
      match findSplit pat cs with
      | none => none
      | some (pre, post) => some (c :: pre, post)

/-- Split into at most `n` tokens (`n ≥ 1`); the last token keeps the
unsplit remainder, matching `g_strsplit`'s `max_tokens` behaviour. -/
def gSplitTokens (pat : List Char) : Nat → List Char → List (List Char)
  | 0, s => [s]
  | 1, s => [s]
  | n + 2, s =>
    match findSplit pat s with
    | none => [s]
    | some (pre, post) => pre :: gSplitTokens pat (n + 1) post

/-- Model of `g_strsplit(string, delimiter, max_tokens)`; `max_tokens = 0`
means unlimited (the C callers pass 0 or 4).  A token budget of
`length + 1` can never be exhausted, since every split consumes at least
one character. -/
def g_strsplit (s pat : List Char) (maxTokens : Nat) : List (List Char) :=
  if s.isEmpty then []
  else gSplitTokens pat (if maxTokens = 0 then s.length + 1 else maxTokens) s

/-- Model of `replace` from src/chat.c:79-86: `g_strsplit` on `a` followed
by `g_strjoinv` with `b`, i.e. every leftmost non-overlapping occurrence
of `a` in `dst` is replaced by `b`. -/
def replaceL (dst pat rep : List Char) : List Char :=
  List.intercalate rep (g_strsplit dst pat 0)

/-- String-level wrapper for `replace`. -/
def replaceS (dst pat rep : String) : String :=
  String.mk (replaceL dst.toList pat.toList rep.toList)

/-- Model of `strstr(s, pat) != NULL`: `pat` occurs somewhere in `s`. -/
def containsSub (s pat : String) : Bool :=
  (findSplit pat.toList s.toList).isSome

/-! ### Mention rewriting (src/chat.c)

`MENTION_PATTERN` is the regex `&lt;@([\w\-]+)\|(.*?)&gt;` and
`MENTION_REPLACEMENT` is `<b>\2</b>`; `g_regex_replace` rewrites every
leftmost non-overlapping match.  The scanner below implements exactly
that: at each position it tries to match `&lt;@`, a non-empty greedy run
of word characters (PCRE `\w` plus `-`), a literal `|`, then the lazily
shortest newline-free body terminated by `&gt;`. -/

/-- Characters matched by `[\w\-]` in the mention pattern. -/
def wordChar (c : Char) : Bool := c.isAlphanum || c == '_' || c == '-'

/-- Lazy body of a mention: the shortest newline-free prefix terminated by
`&gt;` (PCRE `(.*?)&gt;` where `.` does not match a newline). -/
def lazyBody (s : List Char) : Option (List Char × List Char) :=
  if pfx "&gt;".toList s then some ([], s.drop 4)
  else
    match s with
    | [] => none
    | c :: cs =>
      if c == '\n' then none
      else
        match lazyBody cs with
        | none => none
        | some (body, rest) => some (c :: body, rest)

/-- Attempt to match `MENTION_PATTERN` at the head of `s`; on success
returns the display-name capture (`\2`) and the rest of the input. -/
def tryMention (s : List Char) : Option (List Char × List Char) :=
  if pfx "&lt;@".toList s then
    let after := s.drop 5
    if (after.takeWhile wordChar).isEmpty then none
    else
      match after.dropWhile wordChar with
      | '|' :: rest2 =>
        match lazyBody rest2 with
        | none => none
        | some (body, rest3) => some (body, rest3)
      | _ => none
  else none

/-- One fuelled left-to-right pass of `g_regex_replace` with
`MENTION_REPLACEMENT`: each match becomes `<b>\2</b>`, non-matching
characters are copied.  Fuel `≥ length` is exact since every step
consumes at least one character. -/
def scanMention : Nat → List Char → List Char
  | 0, s => s
  | fuel + 1, s =>
    match s with
    | [] => []
    | c :: cs =>
      match tryMention s with
      | some (body, rest) => "<b>".toList ++ body ++ "</b>".toList ++ scanMention fuel rest
      | none => c :: scanMention fuel cs

/-- Model of `g_regex_replace(mention_regex, message, -1, 0, "<b>\\2</b>", 0, NULL)`. -/
def inboundSub (message : String) : String :=
  String.mk (scanMention message.toList.length message.toList)

/-- Model of `parse_inbound_mentions` from src/chat.c:71-77: rewrites the
mention markup to bold display text and reports whether `me` was
mentioned (the raw text contains the viewer's profile id, `&lt;@all|` or
`&lt;@present|`). -/
def parse_inbound_mentions (profile_id : String) (message : String) : Bool × String :=
  (containsSub message profile_id || containsSub message "&lt;@all|" ||
     containsSub message "&lt;@present|",
   inboundSub message)

/-- Model of `parse_outbound_mentions` from src/chat.c:102-109 with
`expand_member_cb`: rewrites `@all` and `@present` to their wire forms,
then replaces each member's display name by `<@member-id|display name>`.
The members hash table's unordered `g_hash_table_foreach` is modelled as
a fold over the member list in table order. -/
def parse_outbound_mentions (members : List (String × String)) (message : String) : String :=
  members.foldl
    (fun dst m => replaceS dst m.2 ("<@" ++ m.1 ++ "|" ++ m.2 ++ ">"))
    (replaceS (replaceS message "@all" "<@all|All Members>")
      "@present" "<@present|Present Members>")

/-- Model of glib's `g_markup_escape_text` for one character. -/
def escapeChar (c : Char) : List Char :=
  if c == '&' then "&amp;".toList
  else if c == '<' then "&lt;".toList
  else if c == '>' then "&gt;".toList
  else if c == '"' then "&quot;".toList
  else if c == '\'' then "&apos;".toList
  else [c]

/-- Model of `g_markup_escape_text(content, -1)`. -/
def g_markup_escape_text (s : String) : String :=
  String.mk (List.flatten (s.toList.map escapeChar))

/-! ### Room / chat session state (src/chat.c)

`GHashTable`s are modelled as association lists (`g_hash_table_insert`
replaces an existing binding) or lists of keys for the sent-message set;
glib hash iteration order is modelled as list order.  `SoupMessage`
handles are opaque naturals. -/

/-- Helper: `json_object_get_member(json_node_get_object(j), name)` with
json-glib's NULL propagation (a non-object node yields NULL). -/
def getMember (j : Json) (name : String) : Option Json :=
  match json_node_get_object j with
  | none => none
  | some obj => json_object_get_member obj name

/-- Modelled external glib call: `g_time_val_from_iso8601`.  No claim
depends on the ISO-8601 format itself, only on parse success and on the
ordering of parsed stamps, so a timestamp string is abstracted to a
decimal integer (seconds), microseconds 0; a non-numeric string fails. -/
def g_time_val_from_iso8601 (s : String) : Option (Int × Int) :=
  (String.toInt? s).map fun n => (n, 0)

/-- Model of `parse_time(node, member, &time_str, &tv)` (declared in the
repository outside src/): `parse_string` on the member followed by
`g_time_val_from_iso8601`, returning the raw string and the parsed
stamp. -/
def parse_time (node : Json) (member : String) : Option (String × Int × Int) :=
  match parseStr node member with
  | none => none
  | some s =>
    match g_time_val_from_iso8601 s with
    | none => none
    | some tv => some (s, tv)

/-- Entry of the room membership table (`struct chat_member`). -/
structure ChatMember where
  id : String
  email : String
  display_name : String

/-- Presence flags assigned by `add_chat_member`
(`PURPLE_CBFLAGS_AWAY` / `PURPLE_CBFLAGS_VOICE`). -/
inductive PresFlag where
  | away : PresFlag
  | voice : PresFlag

/-- `struct chime_msgs`: the per-room message-sync state.  `messages` is
the in-progress buffer keyed by message id (NULL once the historical
fetch has completed and the buffer was destroyed); `soup_msg` the
in-flight history-page request handle. -/
structure ChimeMsgs where
  messages : Option (List (String × Json))
  msgs_done : Bool
  members_done : Bool
  soup_msg : Option Nat

/-- `struct chime_chat`: per-room session state owned by the Room/Chat
Session Manager. -/
structure ChimeChat where
  id : String
  convId : Nat
  msgs : ChimeMsgs
  sent_msgs : List String
  members : List (String × ChatMember)
  members_msg : Option Nat

/-- Model of `g_hash_table_insert` on a table keyed by strings: replace
the binding if the key is present, otherwise add it. -/
def g_hash_table_insert (tbl : List (String × Json)) (k : String) (v : Json) :
    List (String × Json) :=
  match tbl with
  | [] => [(k, v)]
  | (k0, v0) :: rest =>
    if k0 = k then (k, v) :: rest else (k0, v0) :: g_hash_table_insert rest k v

/-- Model of `g_hash_table_add` on the sent-message id set. -/
def g_hash_table_add (tbl : List String) (k : String) : List String :=
  if k ∈ tbl then tbl else k :: tbl

/-- Association-list lookup modelling `g_hash_table_lookup`. -/
def tblLookup {α : Type} (tbl : List (String × α)) (k : String) : Option α :=
  match tbl with
  | [] => none
  | (k0, v) :: rest => if k0 = k then some v else tblLookup rest k

/-- A message as handed to the host via `serv_got_chat_in`. -/
structure HostMsg where
  sender_name : String
  text : String
  isSend : Bool
  nick : Bool
  time : Int

/-- Model of `parse_incoming_msg` from src/chat.c:111-147: parse Content
and Sender (silently dropping the message if either is missing), pick the
display name and direction, markup-escape the content, rewrite inbound
mentions, and deliver with `PURPLE_MESSAGE_NICK` added for a received
message that mentions the viewer.  `profileId`/`ownDisplay` come from the
connection, `members` from the chat. -/
def parse_incoming_msg (profileId ownDisplay : String)
    (members : List (String × ChatMember)) (node : Json) (msg_time : Int) :
    Option HostMsg :=
  match parseStr node "Content" with
  | none => none
  | some content =>
    match parseStr node "Sender" with
    | none => none
    | some sender =>
      let fromName :=
        if sender = profileId then ownDisplay
        else
          match tblLookup members sender with
          | some who => who.display_name
          | none => "Unknown sender"
      let isSend := sender = profileId
      let escaped := g_markup_escape_text content
      let mp := parse_inbound_mentions profileId escaped
      some
        { sender_name := fromName, text := mp.2, isSend := isSend,
          nick := mp.1 && !isSend, time := msg_time }

/-- Model of `chat_deliver_msg` from src/chat.c:149-161: a message id
found in the sent-message dedup table is suppressed and removed from the
table; otherwise the message is delivered via `parse_incoming_msg`. -/
def chat_deliver_msg (profileId ownDisplay : String)
    (members : List (String × ChatMember)) (sent_msgs : List String)
    (node : Json) (msg_time : Int) : List String × Option HostMsg :=
  match parseStr node "MessageId" with
  | some msg_id =>
    if msg_id ∈ sent_msgs then (sent_msgs.erase msg_id, none)
    else (sent_msgs, parse_incoming_msg profileId ownDisplay members node msg_time)
  | none => (sent_msgs, parse_incoming_msg profileId ownDisplay members node msg_time)

/-- Effects of one `chat_msg_jugg_cb` invocation. -/
structure JuggOut where
  handled : Bool
  messages : Option (List (String × Json))
  sent_msgs : List String
  delivered : Option HostMsg
  lastMsgWrite : Option (String × String)

/-- Model of `chat_msg_jugg_cb` from src/chat.c:203-231: a live message
event with a record and a MessageId is buffered (keyed by id) while the
historical fetch is still gathering (`msgs.messages` non-NULL); once the
buffer is gone, the event's stamp is recorded via `chime_update_last_msg`
and the record is delivered through `chat_deliver_msg`. -/
def chat_msg_jugg_cb (profileId ownDisplay : String) (chat : ChimeChat)
    (data_node : Json) : JuggOut :=
  match getMember data_node "record" with
  | none => ⟨false, chat.msgs.messages, chat.sent_msgs, none, none⟩
  | some record =>
    match parseStr record "MessageId" with
    | none => ⟨false, chat.msgs.messages, chat.sent_msgs, none, none⟩
    | some msg_id =>
      match chat.msgs.messages with
      | some buf =>
        ⟨true, some (g_hash_table_insert buf msg_id record), chat.sent_msgs, none, none⟩
      | none =>
        match parse_time record "CreatedOn" with
        | none => ⟨false, none, chat.sent_msgs, none, none⟩
        | some (msg_time, tv) =>
          let r := chat_deliver_msg profileId ownDisplay chat.members
            chat.sent_msgs record tv.1
          ⟨true, none, r.1, r.2, some (msg_time, msg_id)⟩

/-- Model of `add_chat_member` from src/chat.c:163-201: requires a Member
node, a known Presence value, and ProfileId/Email/DisplayName; a new
member is added to the table, an existing one only has presence flags
updated (no removal path). -/
def add_chat_member (members : List (String × ChatMember)) (node : Json) :
    List (String × ChatMember) × Bool :=
  match getMember node "Member" with
  | none => (members, false)
  | some member =>
    match parseStr node "Presence" with
    | none => (members, false)
    | some presence =>
      let flagsOpt : Option PresFlag :=
        if presence = "notPresent" then some .away
        else if presence = "present" then some .voice
        else none
      match flagsOpt with
      | none => (members, false)
      | some _flags =>
        match parseStr member "ProfileId", parseStr member "Email",
            parseStr member "DisplayName" with
        | some mid, some email, some display_name =>
          match tblLookup members mid with
          | none =>
            (members ++ [(mid, ⟨mid, email, display_name⟩)], true)
          | some _ => (members, true)
        | _, _, _ => (members, false)

/-- An HTTP request as queued via `chime_connection_queue_http_request`. -/
structure HttpReq where
  method : String
  path : String
  query : List (String × String)

/-- Model of the request constructed by `fetch_chat_memberships`
(src/chat.c:311-318): a GET on `/rooms/<id>/memberships` asking for
`max-results=50`, with `next-token` only when a continuation token is
given. -/
def fetch_chat_memberships (roomId : String) (next_token : Option String) : HttpReq :=
  { method := "GET", path := "/rooms/" ++ roomId ++ "/memberships",
    query :=
      [("max-results", "50")] ++
        match next_token with
        | some t => [("next-token", t)]
        | none => [] }

/-- Effects of one `fetch_members_cb` invocation. -/
structure MembersCbOut where
  members : List (String × ChatMember)
  members_msg : Option Nat
  members_done : Bool
  nextRequest : Option HttpReq
  completeCalled : Bool

/-- Model of `fetch_members_cb` from src/chat.c:290-309: one page of the
membership fetch.  The result is `none` when the response has no
`RoomMemberships` array (the C code would dereference NULL).  Otherwise
the page's members are added, and either the next page is requested
(NextToken present) or `members_done` is set and
`chime_complete_messages` is invoked exactly when the message fetch has
already finished. -/
def fetch_members_cb (chat : ChimeChat) (node : Json) (newHandle : Nat) :
    Option MembersCbOut :=
  match getMember node "RoomMemberships" with
  | some (.jarr arr) =>
    let members := arr.foldl (fun ms n => (add_chat_member ms n).1) chat.members
    match parseStr node "NextToken" with
    | some next_token =>
      some
        { members := members, members_msg := some newHandle,
          members_done := chat.msgs.members_done,
          nextRequest := some (fetch_chat_memberships chat.id (some next_token)),
          completeCalled := false }
    | none =>
      some
        { members := members, members_msg := none, members_done := true,
          nextRequest := none, completeCalled := chat.msgs.msgs_done }
  | _ => none

/-- Model of `SOUP_STATUS_IS_SUCCESSFUL`. -/
def soupSuccessful (status : Nat) : Bool :=
  decide (200 ≤ status) && decide (status < 300)

/-- Suppression test of src/chat.c:417-421: the externally persisted
last-seen stamp (read via `chime_read_last_msg`) parses and is at least
as new as the created stamp `tv`. -/
def seenAtLeast (lastSeen : Option String) (tv : Int × Int) : Bool :=
  match lastSeen with
  | none => false
  | some ls =>
    match g_time_val_from_iso8601 ls with
    | none => false
    | some seen => decide (seen.1 > tv.1 ∨ (seen.1 = tv.1 ∧ seen.2 ≥ tv.2))

/-- The created stamp used by `send_msg_cb` (src/chat.c:411-412):
CreatedOn when it parses, otherwise `time(NULL)` with unset
microseconds modelled as 0. -/
def createdTv (msgnode : Json) (now : Int) : Int × Int :=
  match parse_time msgnode "CreatedOn" with
  | some r => r.2
  | none => (now, 0)

/-- Effects of one `send_msg_cb` invocation. -/
structure SendCbOut where
  sent_msgs : List String
  echoed : Option HostMsg
  errorWritten : Bool

/-- Model of `send_msg_cb` from src/chat.c:393-430: on an unsuccessful
status an error is written to the conversation; otherwise, if the
response carries a Message whose stamp is not already covered by the
persisted last-seen marker, the assigned MessageId is recorded in the
sent-message dedup table and the message is echoed locally via
`parse_incoming_msg`.  `now` stands for `time(NULL)` (the fallback when
CreatedOn fails to parse, microseconds left unset) and `lastSeen` for the
externally persisted marker. -/
def send_msg_cb (profileId ownDisplay : String)
    (members : List (String × ChatMember)) (sent_msgs : List String)
    (status : Nat) (node : Json) (now : Int) (lastSeen : Option String) :
    SendCbOut :=
  if !soupSuccessful status then ⟨sent_msgs, none, true⟩
  else
    match getMember node "Message" with
    | none => ⟨sent_msgs, none, false⟩
    | some msgnode =>
      let tv : Int × Int := createdTv msgnode now
      if seenAtLeast lastSeen tv then ⟨sent_msgs, none, false⟩
      else
        let sent' :=
          match parseStr msgnode "MessageId" with
          | some msg_id => g_hash_table_add sent_msgs msg_id
          | none => sent_msgs
        ⟨sent', parse_incoming_msg profileId ownDisplay members msgnode tv.1, false⟩

/-! ### Juggernaut subscriptions and connection state

`chime_jugg_subscribe` / `chime_jugg_unsubscribe` / dispatch and the
queue wrapper's handling of cancelled requests live outside src/ (only
their callers are here); they are modelled from the spec. -/

/-- Callback identity of a juggernaut subscription. -/
inductive CbTag where
  | roomMsg : CbTag
  | roomMembership : CbTag
  | demux : CbTag
  deriving DecidableEq

/-- A juggernaut subscription tuple (channel, event type, callback,
opaque context); the context is the subscribing chat's room id. -/
structure Sub where
  channel : String
  evtype : String
  cb : CbTag
  ctx : String
  deriving DecidableEq

/-- Modelled from the spec: `chime_jugg_subscribe` (jugg.c, not under
src/) registers a subscription; dispatch runs in registration order, so
registration appends (spec §4.3). -/
def chime_jugg_subscribe (subs : List Sub) (s : Sub) : List Sub :=
  subs ++ [s]

/-- Modelled from the spec: `chime_jugg_unsubscribe` (jugg.c, not under
src/) removes a (channel, type, callback, context) tuple, a no-op when
absent (spec §4.3). -/
def chime_jugg_unsubscribe (subs : List Sub) (s : Sub) : List Sub :=
  subs.erase s

/-- Modelled from the spec: juggernaut dispatch demultiplexes by exact
(channel, type) match and invokes every matching subscription in
registration order (spec §4.3). -/
def jugg_dispatch (subs : List Sub) (channel evtype : String) : List Sub :=
  subs.filter fun s => s.channel == channel && s.evtype == evtype

/-- Modelled from the spec: completion delivery of a queued HTTP request
(the wrapper around `soup_session_queue_message`, not under src/): a
callback belonging to a cancelled operation is suppressed as a no-op
(spec §5). -/
def http_callback_delivered (cancelled : List Nat) (h : Nat) : Bool :=
  !(decide (h ∈ cancelled))

/-- A room as obtained from `chime_connection_room_by_id`. -/
structure Room where
  id : String
  name : String
  channel : String

/-- Connection-private chat state (`priv->live_chats`,
`priv->chats_by_room`, the subscription table, cancelled request handles
and fresh `SoupMessage` handle counter). -/
structure ConnState where
  chat_id : Nat
  live_chats : List (Nat × ChimeChat)
  chats_by_room : List (String × ChimeChat)
  subs : List Sub
  cancelled : List Nat
  next_req : Nat

/-- Model of `do_join_chat` from src/chat.c:330-369: NULL room yields
NULL; an already-joined room returns the existing chat with the
connection state untouched; otherwise a fresh chat is created (new
conversation id, empty sent-message and member tables), registered in
both maps, subscribed to RoomMessage and RoomMembership on the room's
channel, and — modelled from the spec for `fetch_messages`
(messages.c, not under src/, spec §4.4(1)) — the historical fetch starts
with a fresh in-progress buffer and an in-flight request handle, as does
the membership fetch. -/
def do_join_chat (priv : ConnState) (room : Option Room) :
    ConnState × Option ChimeChat :=
  match room with
  | none => (priv, none)
  | some room =>
    match tblLookup priv.chats_by_room room.id with
    | some chat => (priv, some chat)
    | none =>
      let chat_id := priv.chat_id + 1
      let chat : ChimeChat :=
        { id := room.id, convId := chat_id,
          msgs :=
            { messages := some [], msgs_done := false, members_done := false,
              soup_msg := some priv.next_req },
          sent_msgs := [], members := [],
          members_msg := some (priv.next_req + 1) }
      let subs :=
        chime_jugg_subscribe
          (chime_jugg_subscribe priv.subs
            ⟨room.channel, "RoomMessage", .roomMsg, room.id⟩)
          ⟨room.channel, "RoomMembership", .roomMembership, room.id⟩
      ({ priv with
          chat_id := chat_id,
          live_chats := priv.live_chats ++ [(chat_id, chat)],
          chats_by_room := priv.chats_by_room ++ [(room.id, chat)],
          subs := subs, next_req := priv.next_req + 2 },
        some chat)

/-- Model of `chime_destroy_chat` from src/chat.c:245-281: cancel the
in-flight history and membership requests, unsubscribe the RoomMessage
and RoomMembership callbacks on the room's channel, and drop the chat
from both connection maps. -/
def chime_destroy_chat (priv : ConnState) (chat : ChimeChat) (channel : String) :
    ConnState :=
  let cancelled :=
    match chat.msgs.soup_msg with
    | some h => priv.cancelled ++ [h]
    | none => priv.cancelled
  let cancelled :=
    match chat.members_msg with
    | some h => cancelled ++ [h]
    | none => cancelled
  let subs :=
    chime_jugg_unsubscribe
      (chime_jugg_unsubscribe priv.subs ⟨channel, "RoomMessage", .roomMsg, chat.id⟩)
      ⟨channel, "RoomMembership", .roomMembership, chat.id⟩
  { priv with
    cancelled := cancelled, subs := subs,
    live_chats := priv.live_chats.filter fun p => !(p.1 == chat.convId),
    chats_by_room := priv.chats_by_room.filter fun p => !(p.1 == chat.id) }

/-- Modelled from the spec: the message-fetch side of completion
(`fetch_messages`' final page callback in messages.c, not under src/):
exhausting the historical pages sets `msgs_done` and calls
`chime_complete_messages` exactly when the membership fetch has already
finished (spec §4.4(3),(5)); the returned Bool is that call. -/
def msgs_fetch_exhausted (msgs : ChimeMsgs) : ChimeMsgs × Bool :=
  ({ msgs with msgs_done := true }, msgs.members_done)

/-- Room-synchronization events for the completion-gating trace: the
message fetch exhausting its pages, or one membership page arriving. -/
inductive RoomEv where
  | msgsExhausted : RoomEv
  | memberPage (node : Json) (newHandle : Nat) : RoomEv

/-- A room's sync state plus whether `chime_complete_messages` has been
called (the room was declared "ready"). -/
structure RoomSync where
  chat : ChimeChat
  ready : Bool

/-- One step of the room-completion state machine, driven by
`msgs_fetch_exhausted` (spec-modelled) and `fetch_members_cb` (source). -/
def roomStep (st : RoomSync) (ev : RoomEv) : Option RoomSync :=
  match ev with
  | .msgsExhausted =>
    let r := msgs_fetch_exhausted st.chat.msgs
    some { chat := { st.chat with msgs := r.1 }, ready := st.ready || r.2 }
  | .memberPage node h =>
    match fetch_members_cb st.chat node h with
    | none => none
    | some out =>
      some
        { chat :=
            { st.chat with
              members := out.members, members_msg := out.members_msg,
              msgs := { st.chat.msgs with members_done := out.members_done } },
          ready := st.ready || out.completeCalled }

/-! ### Session / token manager (src/chime.c) -/

/-- Error classes raised by `process_soup_response`. -/
inductive ChimeError where
  | requestFailed : ChimeError
  | badResponse : ChimeError
  | parseFailed : ChimeError
  deriving DecidableEq

/-- Model of `process_soup_response` from src/chime.c:67-99: non-200/201
status, wrong content type, or a body that fails to parse as JSON each
yield an error; otherwise the parsed root node.  The body is modelled as
the `Option Json` outcome of `json_parser_load_from_data`. -/
def process_soup_response (status : Nat) (content_type : Option String)
    (body : Option Json) : Except ChimeError Json :=
  if !(status == 200 || status == 201) then .error .requestFailed
  else
    match content_type with
    | none => .error .badResponse
    | some ct =>
      if !(ct == "application/json") then .error .badResponse
      else
        match body with
        | none => .error .parseFailed
        | some root => .ok root

/-- Effects of one `renew_cb` invocation.  `reissued` lists the requests
handed back to `soup_session_queue_message` in order, with the Cookie
header set on each; `failedCompletions` the queued requests completed
with a failure (the code has no path doing this). -/
structure RenewOut where
  fatal : Bool
  token : Option String
  queue : List Nat
  reissued : List (Nat × String)
  failedCompletions : List Nat
  deriving DecidableEq

/-- The `while (g_list_first(...))` loop of src/chime.c:131-137: take the
head of the queue, replace its Cookie header, re-queue it, remove it;
repeat until empty. -/
def flushQueue : List Nat → String → List (Nat × String)
  | [], _ => []
  | r :: rest, cookie => (r, cookie) :: flushQueue rest cookie

/-- Model of `renew_cb` from src/chime.c:101-140: a failed response or a
response without SessionToken raises a fatal connection error (leaving
the pending queue as it is); otherwise the new token is stored, one
cookie header is built from it, and every queued request is re-issued in
FIFO order. -/
def renew_cb (status : Nat) (content_type : Option String) (body : Option Json)
    (queue : List Nat) : RenewOut :=
  match process_soup_response status content_type body with
  | .error _ => ⟨true, none, queue, [], []⟩
  | .ok tok_node =>
    match parseStr tok_node "SessionToken" with
    | none => ⟨true, none, queue, [], []⟩
    | some sess_tok =>
      ⟨false, some sess_tok, [], flushQueue queue ("_aws_wt_session=" ++ sess_tok), []⟩

/-- Model of `resubmit_msg_for_auth` from src/chime.c:188-203: the
auth-failed request is appended to the pending-renewal queue; a renewal
(`chime_renew_token`) is triggered only when the queue was empty.  The
Bool reports whether a renewal call was issued. -/
def resubmit_msg_for_auth (queue : List Nat) (r : Nat) : List Nat × Bool :=
  if queue.isEmpty then (queue ++ [r], true) else (queue ++ [r], false)

/-- Folding `resubmit_msg_for_auth` over a burst of auth failures,
counting issued renewal calls. -/
def resubmitAll (start : List Nat × Nat) (rs : List Nat) : List Nat × Nat :=
  rs.foldl
    (fun acc r =>
      let step := resubmit_msg_for_auth acc.1 r
      (step.1, acc.2 + (if step.2 then 1 else 0)))
    start

/-- Outcome of `ws_cb`. -/
inductive WsAction where
  | resubmitAuth : WsAction
  | connError : WsAction
  | upgrade (sessionParam : String) (protos : List String) : WsAction
  deriving DecidableEq

/-- String-level `g_strsplit`. -/
def g_strsplitS (s delim : String) (maxTokens : Nat) : List String :=
  (g_strsplit s.toList delim.toList maxTokens).map String.mk

/-- Model of `ws_cb` from src/chime.c:283-329: a 401 goes back through
the renewal flow; any other non-200 status is a connection error; a 200
body is split on `:` into at most 4 fields, and the websocket upgrade is
attempted only when fields 1-3 exist and field 3 passes
`strncmp(ws_opts[3], "websocket,", 10) == 0`; the upgrade carries the
session parameter (field 1) and the comma-split transport list
(field 3). -/
def ws_cb (status : Nat) (body : Option String) : WsAction :=
  if status == 401 then .resubmitAuth
  else if !(status == 200) then .connError
  else
    match body with
    | none => .connError
    | some d =>
      let parts := g_strsplitS d ":" 4
      match parts[1]?, parts[2]?, parts[3]? with
      | some p1, some _p2, some p3 =>
        if pfx "websocket,".toList p3.toList then .upgrade p1 (g_strsplitS p3 "," 0)
        else .connError
      | _, _, _ => .connError

/-- Whether a `ws_cb` outcome is an upgrade attempt. -/
def wsUpgradeOf : WsAction → Bool
  | .upgrade _ _ => true
  | _ => false

/-! ## Helper lemmas -/

theorem pfx_refl_append (p t : List Char) : pfx p (p ++ t) = true := by
  induction p with
  | nil => rfl
  | cons a as ih => simp [pfx, ih]

theorem pfx_drop (p : List Char) :
    ∀ s : List Char, pfx p s = true → p ++ s.drop p.length = s := by
  induction p with
  | nil => intro s _; rfl
  | cons a as ih =>
    intro s h
    cases s with
    | nil => cases h
    | cons b bs =>
      simp only [pfx, Bool.and_eq_true, beq_iff_eq] at h
      obtain ⟨rfl, h2⟩ := h
      simpa [List.length_cons, List.drop_succ_cons] using ih bs h2

theorem findSplit_some_decomp (pat : List Char) :
    ∀ (s pre post : List Char), findSplit pat s = some (pre, post) →
      s = pre ++ pat ++ post := by
  intro s
  induction s with
  | nil =>
    intro pre post h
    simp only [findSplit] at h
    cases hp : pat with
    | nil => rw [hp] at h; simp [pfx] at h
    | cons a as => rw [hp] at h; simp [pfx] at h
  | cons a cs ih =>
    intro pre post h
    simp only [findSplit] at h
    by_cases hc : (!pat.isEmpty && pfx pat (a :: cs)) = true
    · rw [if_pos hc] at h
      injection h with h'
      injection h' with h1 h2
      subst h1
      subst h2
      simp only [List.nil_append]
      exact (pfx_drop pat (a :: cs) (Bool.and_elim_right hc)).symm
    · rw [if_neg hc] at h
      cases hf : findSplit pat cs with
      | none => rw [hf] at h; cases h
      | some pq =>
        obtain ⟨p, q⟩ := pq
        rw [hf] at h
        injection h with h'
        injection h' with h1 h2
        subst h1
        subst h2
        simpa using congrArg (a :: ·) (ih p q hf)

theorem findSplit_cons_of_neg (pat : List Char) (a : Char) (cs : List Char)
    (hc : (!pat.isEmpty && pfx pat (a :: cs)) = false) :
    findSplit pat (a :: cs) =
      (findSplit pat cs).map fun pq => (a :: pq.1, pq.2) := by
  simp only [findSplit, hc, Bool.false_eq_true, if_false]
  cases findSplit pat cs with
  | none => rfl
  | some pq => rfl

theorem findSplit_at (c0 : Char) (p' : List Char) :
    ∀ (x y : List Char), c0 ∉ x →
      findSplit (c0 :: p') (x ++ (c0 :: p') ++ y) = some (x, y) := by
  intro x
  induction x with
  | nil =>
    intro y _
    have hp : pfx (c0 :: p') ((c0 :: p') ++ y) = true := pfx_refl_append _ _
    simp only [List.nil_append, findSplit, hp, List.isEmpty_cons, Bool.not_false,
      Bool.and_self, if_true]
    rw [List.drop_left]
  | cons a x' ih =>
    intro y hx
    have ha : ¬c0 = a := fun h => hx (by simp [h.symm])
    have hrw : (a :: x') ++ (c0 :: p') ++ y = a :: (x' ++ (c0 :: p') ++ y) := by
      simp
    rw [hrw, findSplit_cons_of_neg _ _ _ (by simp [pfx, ha]),
      ih y (fun h => hx (List.mem_cons_of_mem a h))]
    rfl

theorem findSplit_single_some (ch : Char) :
    ∀ (s pre post : List Char), findSplit [ch] s = some (pre, post) →
      s = pre ++ ch :: post ∧ ch ∉ pre := by
  intro s
  induction s with
  | nil =>
    intro pre post h
    simp [findSplit, pfx] at h
  | cons a cs ih =>
    intro pre post h
    by_cases hc : a = ch
    · subst hc
      have heq : findSplit [a] (a :: cs) = some ([], cs) := by
        simp [findSplit, pfx]
      rw [heq] at h
      injection h with h'
      injection h' with h1 h2
      subst h1; subst h2
      exact ⟨rfl, by simp⟩
    · have hne : ¬ch = a := fun h => hc h.symm
      rw [findSplit_cons_of_neg _ _ _ (by simp [pfx, hne])] at h
      cases hf : findSplit [ch] cs with
      | none => rw [hf] at h; cases h
      | some pq =>
        obtain ⟨p, q⟩ := pq
        rw [hf] at h
        injection h with h'
        injection h' with h1 h2
        subst h1; subst h2
        obtain ⟨hdec, hnot⟩ := ih p q hf
        refine ⟨by simp [hdec], ?_⟩
        intro hmem
        rcases List.mem_cons.1 hmem with h | h
        · exact hc h.symm
        · exact hnot h

theorem tblLookup_append {α : Type} (xs ys : List (String × α)) (k : String)
    (h : tblLookup xs k = none) : tblLookup (xs ++ ys) k = tblLookup ys k := by
  induction xs with
  | nil => rfl
  | cons p rest ih =>
    obtain ⟨k0, v⟩ := p
    by_cases hk : k0 = k
    · subst hk
      simp [tblLookup] at h
    · simp only [List.cons_append, tblLookup, if_neg hk] at h ⊢
      exact ih h

theorem tblLookup_self {α : Type} (xs : List (String × α)) (k : String) (v : α)
    (h : tblLookup xs k = none) : tblLookup (xs ++ [(k, v)]) k = some v := by
  rw [tblLookup_append xs [(k, v)] k h]
  simp [tblLookup]

theorem resubmitAll_nonempty (rs : List Nat) :
    ∀ (q : List Nat) (n : Nat), q ≠ [] → resubmitAll (q, n) rs = (q ++ rs, n) := by
  induction rs with
  | nil => intro q n _; simp [resubmitAll]
  | cons r rest ih =>
    intro q n hq
    have hq' : q.isEmpty = false := by
      cases q with
      | nil => exact absurd rfl hq
      | cons a as => rfl
    show resubmitAll _ (r :: rest) = _
    simp only [resubmitAll, List.foldl_cons] at *
    rw [show resubmit_msg_for_auth q r = (q ++ [r], false) by
      simp [resubmit_msg_for_auth, hq']]
    have := ih (q ++ [r]) (n + 0) (by simp)
    simp only [resubmitAll] at this
    simpa [List.append_assoc] using this

theorem resubmitAll_from_empty (r : Nat) (rs : List Nat) :
    resubmitAll ([], 0) (r :: rs) = (r :: rs, 1) := by
  simp only [resubmitAll, List.foldl_cons]
  rw [show resubmit_msg_for_auth [] r = ([r], true) by rfl]
  have := resubmitAll_nonempty rs [r] (0 + 1) (by simp)
  simp only [resubmitAll] at this
  simpa using this

theorem flushQueue_eq_map (q : List Nat) (cookie : String) :
    flushQueue q cookie = q.map fun r => (r, cookie) := by
  induction q with
  | nil => rfl
  | cons r rest ih => simp [flushQueue, ih]

theorem findSplit_at' (ch : Char) (x y : List Char) (hx : ch ∉ x) :
    findSplit [ch] (x ++ ch :: y) = some (x, y) := by
  have h := findSplit_at ch [] x y hx
  simpa using h

theorem gSplitTokens_step (pat : List Char) (n : Nat) (s pre post : List Char)
    (h : findSplit pat s = some (pre, post)) :
    gSplitTokens pat (n + 2) s = pre :: gSplitTokens pat (n + 1) post := by
  simp only [gSplitTokens, h]

theorem gSplitTokens_stuck (pat : List Char) (n : Nat) (s : List Char)
    (h : findSplit pat s = none) : gSplitTokens pat (n + 2) s = [s] := by
  simp only [gSplitTokens, h]

theorem gSplitTokens_one (pat : List Char) (s : List Char) :
    gSplitTokens pat 1 s = [s] := rfl

theorem gSplitTokens_four (ch : Char) (a b c rest : List Char)
    (ha : ch ∉ a) (hb : ch ∉ b) (hc : ch ∉ c) :
    gSplitTokens [ch] 4 (a ++ ch :: (b ++ ch :: (c ++ ch :: rest))) =
      [a, b, c, rest] := by
  show gSplitTokens [ch] (2 + 2) _ = _
  rw [gSplitTokens_step _ _ _ _ _ (findSplit_at' ch a _ ha)]
  show _ :: gSplitTokens [ch] (1 + 2) _ = _
  rw [gSplitTokens_step _ _ _ _ _ (findSplit_at' ch b _ hb)]
  show _ :: _ :: gSplitTokens [ch] (0 + 2) _ = _
  rw [gSplitTokens_step _ _ _ _ _ (findSplit_at' ch c _ hc)]
  rfl

theorem gSplitTokens_four_inv (ch : Char) (s : List Char)
    (hlen : 4 ≤ (gSplitTokens [ch] 4 s).length) :
    ∃ a b c rest, s = a ++ ch :: (b ++ ch :: (c ++ ch :: rest)) ∧
      ch ∉ a ∧ ch ∉ b ∧ ch ∉ c ∧
      gSplitTokens [ch] 4 s = [a, b, c, rest] := by
  cases hf1 : findSplit [ch] s with
  | none =>
    rw [show (4 : Nat) = 2 + 2 from rfl,
      gSplitTokens_stuck _ _ _ hf1] at hlen
    simp at hlen
  | some pq1 =>
    obtain ⟨a, r1⟩ := pq1
    obtain ⟨hd1, hna⟩ := findSplit_single_some ch s a r1 hf1
    have hg1 : gSplitTokens [ch] 4 s = a :: gSplitTokens [ch] 3 r1 := by
      show gSplitTokens [ch] (2 + 2) s = a :: gSplitTokens [ch] (2 + 1) r1
      rw [gSplitTokens_step _ _ _ _ _ hf1]
    rw [hg1] at hlen
    cases hf2 : findSplit [ch] r1 with
    | none =>
      rw [show (3 : Nat) = 1 + 2 from rfl, gSplitTokens_stuck _ _ _ hf2] at hlen
      simp at hlen
    | some pq2 =>
      obtain ⟨b, r2⟩ := pq2
      obtain ⟨hd2, hnb⟩ := findSplit_single_some ch r1 b r2 hf2
      have hg2 : gSplitTokens [ch] 3 r1 = b :: gSplitTokens [ch] 2 r2 := by
        show gSplitTokens [ch] (1 + 2) r1 = b :: gSplitTokens [ch] (1 + 1) r2
        rw [gSplitTokens_step _ _ _ _ _ hf2]
      rw [hg2] at hlen
      cases hf3 : findSplit [ch] r2 with
      | none =>
        rw [show (2 : Nat) = 0 + 2 from rfl,
          gSplitTokens_stuck _ _ _ hf3] at hlen
        simp at hlen
      | some pq3 =>
        obtain ⟨c, r3⟩ := pq3
        obtain ⟨hd3, hnc⟩ := findSplit_single_some ch r2 c r3 hf3
        have hg3 : gSplitTokens [ch] 2 r2 = c :: gSplitTokens [ch] 1 r3 := by
          show gSplitTokens [ch] (0 + 2) r2 = c :: gSplitTokens [ch] (0 + 1) r3
          rw [gSplitTokens_step _ _ _ _ _ hf3]
        refine ⟨a, b, c, r3, ?_, hna, hnb, hnc, ?_⟩
        · rw [hd1, hd2, hd3]
        · rw [hg1, hg2, hg3, gSplitTokens_one]

theorem g_strsplitS_colon (d : String) :
    g_strsplitS d ":" 4 = (g_strsplit d.toList [':'] 4).map String.mk := rfl

theorem g_strsplit_comma_head (l : List Char)
    (h : pfx "websocket,".toList l = true) :
    (g_strsplit l [','] 0)[0]? = some "websocket".toList := by
  have hdec := pfx_drop "websocket,".toList l h
  obtain ⟨t, hl⟩ : ∃ t, l = "websocket".toList ++ ',' :: t :=
    ⟨l.drop 10, hdec.symm⟩
  subst hl
  have hfind : findSplit [','] ("websocket".toList ++ ',' :: t) =
      some ("websocket".toList, t) :=
    findSplit_at' ',' _ _ (by decide)
  have hne : ("websocket".toList ++ ',' :: t).isEmpty = false := rfl
  have hlen : ("websocket".toList ++ ',' :: t).length = t.length + 10 := by
    simp [List.length_append]
  simp only [g_strsplit, hne, Bool.false_eq_true, if_false, if_pos rfl]
  rw [hlen, show t.length + 10 + 1 = (t.length + 9) + 2 from by omega]
  simp only [if_true]
  rw [gSplitTokens_step _ _ _ _ _ hfind]
  simp

theorem findSplit_nil (pat : List Char) (hp : pat ≠ []) :
    findSplit pat [] = none := by
  cases pat with
  | nil => exact absurd rfl hp
  | cons a as => simp [findSplit, pfx]

theorem gSplitTokens_ne_nil (pat : List Char) (n : Nat) (s : List Char) :
    gSplitTokens pat n s ≠ [] := by
  match n with
  | 0 => simp [gSplitTokens]
  | 1 => simp [gSplitTokens]
  | m + 2 =>
    cases hf : findSplit pat s with
    | none => rw [gSplitTokens_stuck _ _ _ hf]; simp
    | some pq => rw [gSplitTokens_step _ _ _ _ _ hf]; simp

theorem findSplit_shrinks (pat : List Char) (hp : pat ≠ []) (s pre post : List Char)
    (h : findSplit pat s = some (pre, post)) : post.length < s.length := by
  have hdec := findSplit_some_decomp pat s pre post h
  have : s.length = pre.length + pat.length + post.length := by
    rw [hdec]; simp [List.length_append]; omega
  have hp1 : 0 < pat.length := List.length_pos.2 hp
  omega

theorem gSplitTokens_adequate (pat : List Char) (hp : pat ≠ []) :
    ∀ (k : Nat) (s : List Char), s.length ≤ k → ∀ n, s.length + 1 ≤ n →
      gSplitTokens pat n s = gSplitTokens pat (s.length + 1) s := by
  intro k
  induction k with
  | zero =>
    intro s hs n hn
    have hnil : s = [] := List.eq_nil_of_length_eq_zero (Nat.le_zero.1 hs)
    subst hnil
    match n, hn with
    | 1, _ => rfl
    | m + 2, _ =>
      rw [gSplitTokens_stuck _ _ _ (findSplit_nil pat hp)]
      rfl
  | succ k ih =>
    intro s hs n hn
    match n, hn with
    | 1, hn =>
      have hnil : s = [] := List.eq_nil_of_length_eq_zero (by omega)
      subst hnil
      rfl
    | m + 2, hn =>
      cases hf : findSplit pat s with
      | none =>
        rw [gSplitTokens_stuck _ _ _ hf]
        cases s with
        | nil => rfl
        | cons a cs =>
          show _ = gSplitTokens pat (cs.length + 2) (a :: cs)
          rw [gSplitTokens_stuck _ _ _ hf]
      | some pq =>
        obtain ⟨pre, post⟩ := pq
        have hlt := findSplit_shrinks pat hp s pre post hf
        rw [gSplitTokens_step _ _ _ _ _ hf]
        have hs1 : 1 ≤ s.length := by omega
        rw [show s.length + 1 = (s.length - 1) + 2 from by omega,
          gSplitTokens_step _ _ _ _ _ hf]
        have h1 := ih post (by omega) (m + 1) (by omega)
        have h2 := ih post (by omega) (s.length - 1 + 1) (by omega)
        rw [h1, h2]

theorem intercalate_cons_of_ne_nil {α : Type} (sep x : List α)
    (L : List (List α)) (h : L ≠ []) :
    List.intercalate sep (x :: L) = x ++ sep ++ List.intercalate sep L := by
  cases L with
  | nil => exact absurd rfl h
  | cons z zs => simp [List.intercalate, List.intersperse]

theorem intercalate_single {α : Type} (sep x : List α) :
    List.intercalate sep [x] = x := by
  simp [List.intercalate]

theorem replaceL_eq_canonical (y pat rep : List Char) :
    replaceL y pat rep =
      List.intercalate rep (gSplitTokens pat (y.length + 1) y) := by
  cases y with
  | nil =>
    show List.intercalate rep [] = List.intercalate rep (gSplitTokens pat 1 [])
    rw [gSplitTokens_one, intercalate_single]
    rfl
  | cons a cs => rfl

theorem replaceL_at (c0 : Char) (p' x y rep : List Char) (hx : c0 ∉ x) :
    replaceL (x ++ (c0 :: p') ++ y) (c0 :: p') rep =
      x ++ rep ++ replaceL y (c0 :: p') rep := by
  have hfind := findSplit_at c0 p' x y hx
  have hlen : (x ++ (c0 :: p') ++ y).length =
      x.length + p'.length + y.length + 1 := by
    simp [List.length_append]
    omega
  rw [replaceL_eq_canonical, hlen,
    show x.length + p'.length + y.length + 1 + 1 =
      (x.length + p'.length + y.length) + 2 from by omega,
    gSplitTokens_step _ _ _ _ _ hfind,
    gSplitTokens_adequate (c0 :: p') (by simp) (y.length) y le_rfl
      (x.length + p'.length + y.length + 1) (by omega),
    intercalate_cons_of_ne_nil _ _ _ (gSplitTokens_ne_nil _ _ _),
    replaceL_eq_canonical]

theorem replaceS_no_occ (msg pat rep : String)
    (h : containsSub msg pat = false) : replaceS msg pat rep = msg := by
  have hnone : findSplit pat.toList msg.toList = none := by
    cases hf : findSplit pat.toList msg.toList with
    | none => rfl
    | some pq =>
      simp only [containsSub, hf] at h
      simp at h
  have key : replaceL msg.toList pat.toList rep.toList = msg.toList := by
    rw [replaceL_eq_canonical]
    cases hm : msg.toList with
    | nil =>
      show List.intercalate rep.toList
        (gSplitTokens pat.toList (List.length [] + 1) []) = []
      rw [show List.length ([] : List Char) + 1 = 1 from rfl,
        gSplitTokens_one, intercalate_single]
    | cons a cs =>
      rw [hm] at hnone
      rw [show (a :: cs).length + 1 = cs.length + 2 from by simp,
        gSplitTokens_stuck _ _ _ hnone, intercalate_single]
  show String.mk (replaceL msg.toList pat.toList rep.toList) = msg
  rw [key]
  rfl

theorem lazyBody_at (name rest : List Char)
    (hname : ∀ ch ∈ name, ch ≠ '&' ∧ ch ≠ '\n') :
    lazyBody (name ++ ("&gt;".toList ++ rest)) = some (name, rest) := by
  induction name with
  | nil =>
    have hp : pfx "&gt;".toList ("&gt;".toList ++ rest) = true :=
      pfx_refl_append _ _
    simp only [List.nil_append, lazyBody, hp, if_true]
    rw [show ("&gt;".toList ++ rest).drop 4 = rest from by
      simpa using List.drop_left "&gt;".toList rest]
  | cons c name' ih =>
    have hc : c ≠ '&' := (hname c (by simp)).1
    have hcn : c ≠ '\n' := (hname c (by simp)).2
    have hc' : ¬('&' = c) := fun h => hc h.symm
    have hp : ¬pfx "&gt;".toList
        (c :: (name' ++ ("&gt;".toList ++ rest))) = true := by
      simp only [show "&gt;".toList = '&' :: "gt;".toList from rfl, pfx]
      simp [hc']
    rw [List.cons_append, lazyBody, if_neg hp]
    rw [ih fun ch hch => hname ch (by simp [hch])]
    simp [hcn]

theorem takeWhile_word (mid : List Char)
    (hmid : ∀ ch ∈ mid, wordChar ch = true) (r : List Char) :
    (mid ++ '|' :: r).takeWhile wordChar = mid ∧
      (mid ++ '|' :: r).dropWhile wordChar = '|' :: r := by
  induction mid with
  | nil =>
    constructor <;>
      simp [List.takeWhile_cons, List.dropWhile_cons,
        show wordChar '|' = false from by decide]
  | cons m mid' ih =>
    have hm : wordChar m = true := hmid m (by simp)
    have ih' := ih fun ch hch => hmid ch (by simp [hch])
    constructor <;>
      simp [List.takeWhile_cons, List.dropWhile_cons, hm, ih'.1, ih'.2]

theorem tryMention_at (mid name post : List Char) (hmid : mid ≠ [])
    (hmw : ∀ ch ∈ mid, wordChar ch = true)
    (hname : ∀ ch ∈ name, ch ≠ '&' ∧ ch ≠ '\n') :
    tryMention
        ("&lt;@".toList ++ (mid ++ '|' :: (name ++ ("&gt;".toList ++ post)))) =
      some (name, post) := by
  have h1 : pfx "&lt;@".toList
      ("&lt;@".toList ++ (mid ++ '|' :: (name ++ ("&gt;".toList ++ post)))) =
        true := pfx_refl_append _ _
  have h2 : ("&lt;@".toList ++
      (mid ++ '|' :: (name ++ ("&gt;".toList ++ post)))).drop 5 =
        mid ++ '|' :: (name ++ ("&gt;".toList ++ post)) := by
    have hd := List.drop_left "&lt;@".toList
      (mid ++ '|' :: (name ++ ("&gt;".toList ++ post)))
    simpa using hd
  have h3 := takeWhile_word mid hmw (name ++ ("&gt;".toList ++ post))
  have h4 : mid.isEmpty = false := by
    cases mid with
    | nil => exact absurd rfl hmid
    | cons _ _ => rfl
  simp only [tryMention, h1, if_true, h2, h3.1, h3.2, h4,
    Bool.false_eq_true, if_false]
  rw [lazyBody_at name post hname]

theorem tryMention_none (c : Char) (cs : List Char) (hc : c ≠ '&') :
    tryMention (c :: cs) = none := by
  have hc' : ¬('&' = c) := fun h => hc h.symm
  have hp : pfx "&lt;@".toList (c :: cs) = false := by
    simp only [show "&lt;@".toList = '&' :: "lt;@".toList from rfl, pfx]
    simp [hc']
  simp only [tryMention, hp, Bool.false_eq_true, if_false]

theorem scanMention_cons_match (fuel : Nat) (c : Char) (cs body rest : List Char)
    (h : tryMention (c :: cs) = some (body, rest)) :
    scanMention (fuel + 1) (c :: cs) =
      "<b>".toList ++ body ++ "</b>".toList ++ scanMention fuel rest := by
  simp only [scanMention, h]

theorem scanMention_cons_skip (fuel : Nat) (c : Char) (cs : List Char)
    (h : tryMention (c :: cs) = none) :
    scanMention (fuel + 1) (c :: cs) = c :: scanMention fuel cs := by
  simp only [scanMention, h]

theorem scanMention_prefix (pre : List Char)
    (hpre : ∀ ch ∈ pre, ch ≠ '&') (t : List Char) (fuel : Nat) :
    scanMention (pre.length + fuel) (pre ++ t) = pre ++ scanMention fuel t := by
  induction pre with
  | nil => simp
  | cons a pre' ih =>
    have ha : a ≠ '&' := hpre a (by simp)
    rw [show (a :: pre').length + fuel = (pre'.length + fuel) + 1 from by
      simp [List.length_cons]; omega]
    rw [List.cons_append,
      scanMention_cons_skip _ _ _ (tryMention_none a _ ha),
      ih fun ch hch => hpre ch (by simp [hch])]
    rfl

theorem lazyBody_decomp : ∀ (s body rest : List Char),
    lazyBody s = some (body, rest) → s = body ++ "&gt;".toList ++ rest := by
  intro s
  induction s with
  | nil =>
    intro body rest h
    simp [lazyBody, pfx] at h
  | cons c cs ih =>
    intro body rest h
    by_cases hp : pfx "&gt;".toList (c :: cs) = true
    · rw [lazyBody, if_pos hp] at h
      injection h with h'
      injection h' with h1 h2
      subst h1; subst h2
      simpa using (pfx_drop "&gt;".toList (c :: cs) hp).symm
    · rw [lazyBody, if_neg hp] at h
      by_cases hcn : (c == '\n') = true
      · rw [if_pos hcn] at h
        cases h
      · rw [if_neg hcn] at h
        cases hl : lazyBody cs with
        | none => rw [hl] at h; cases h
        | some pq =>
          obtain ⟨b, r⟩ := pq
          rw [hl] at h
          injection h with h'
          injection h' with h1 h2
          subst h1; subst h2
          simpa using congrArg (c :: ·) (ih b r hl)

theorem tryMention_some_lt (s body rest : List Char)
    (h : tryMention s = some (body, rest)) : rest.length < s.length := by
  simp only [tryMention] at h
  split at h
  case isTrue hp =>
    split at h
    case isTrue => cases h
    case isFalse =>
      split at h
      case h_1 rest2 heq =>
        cases hl : lazyBody rest2 with
        | none => rw [hl] at h; cases h
        | some pq =>
          obtain ⟨b, r⟩ := pq
          rw [hl] at h
          injection h with h'
          injection h' with h1 h2
          have hr2 := lazyBody_decomp rest2 b r hl
          rw [h2] at hr2
          have hlen5 : s.length = 5 + (s.drop 5).length := by
            have hpd := pfx_drop "&lt;@".toList s hp
            conv_lhs => rw [← hpd]
            simp [List.length_append]
            omega
          have hdw : ('|' :: rest2).length ≤ (s.drop 5).length := by
            rw [← heq]
            exact (List.dropWhile_sublist wordChar).length_le
          have hr2len : rest2.length = b.length + 4 + rest.length := by
            rw [hr2]
            simp [List.length_append]
            omega
          simp only [List.length_cons] at hdw
          omega
      case h_2 => cases h
  case isFalse => cases h

theorem scanMention_adequate :
    ∀ (k : Nat) (s : List Char), s.length ≤ k → ∀ n, s.length ≤ n →
      scanMention n s = scanMention s.length s := by
  intro k
  induction k with
  | zero =>
    intro s hs n _
    have hnil : s = [] := List.eq_nil_of_length_eq_zero (Nat.le_zero.1 hs)
    subst hnil
    cases n <;> rfl
  | succ k ih =>
    intro s hs n hn
    cases s with
    | nil => cases n <;> rfl
    | cons c cs =>
      have hn1 : ∃ m, n = m + 1 := ⟨n - 1, by simp at hn; omega⟩
      obtain ⟨m, rfl⟩ := hn1
      have hlen : (c :: cs).length = cs.length + 1 := rfl
      cases ht : tryMention (c :: cs) with
      | none =>
        rw [scanMention_cons_skip _ _ _ ht, hlen,
          scanMention_cons_skip _ _ _ ht]
        rw [ih cs (by simp at hs; omega) m (by simp at hn; omega),
          ih cs (by simp at hs; omega) cs.length le_rfl]
      | some pq =>
        obtain ⟨body, rest⟩ := pq
        have hlt := tryMention_some_lt (c :: cs) body rest ht
        rw [scanMention_cons_match _ _ _ _ _ ht, hlen,
          scanMention_cons_match _ _ _ _ _ ht]
        rw [ih rest (by simp at hlt; omega) m (by simp at hn hlt; omega),
          ih rest (by simp at hlt; omega) cs.length (by simp at hlt; omega)]

theorem scan_full (pre mid name post : List Char)
    (hpre : ∀ ch ∈ pre, ch ≠ '&') (hmid : mid ≠ [])
    (hmw : ∀ ch ∈ mid, wordChar ch = true)
    (hname : ∀ ch ∈ name, ch ≠ '&' ∧ ch ≠ '\n') :
    scanMention
        (pre ++ ("&lt;@".toList ++
          (mid ++ '|' :: (name ++ ("&gt;".toList ++ post))))).length
        (pre ++ ("&lt;@".toList ++
          (mid ++ '|' :: (name ++ ("&gt;".toList ++ post))))) =
      pre ++ ("<b>".toList ++ (name ++ ("</b>".toList ++
        scanMention post.length post))) := by
  set T : List Char :=
    "&lt;@".toList ++ (mid ++ '|' :: (name ++ ("&gt;".toList ++ post))) with hT
  have hlenT : (pre ++ T).length = pre.length + T.length := by
    simp [List.length_append]
  rw [hlenT, scanMention_prefix pre hpre T T.length]
  have hTcons : T = '&' :: ("lt;@".toList ++
      (mid ++ '|' :: (name ++ ("&gt;".toList ++ post)))) := rfl
  have htm := tryMention_at mid name post hmid hmw hname
  rw [← hT] at htm
  have hTlen : T.length = ("lt;@".toList ++
      (mid ++ '|' :: (name ++ ("&gt;".toList ++ post)))).length + 1 := by
    rw [hTcons]
    rfl
  rw [hTcons] at htm
  rw [hTlen, hTcons]
  rw [scanMention_cons_match _ _ _ _ _ htm]
  have hrest : post.length ≤ ("lt;@".toList ++
      (mid ++ '|' :: (name ++ ("&gt;".toList ++ post)))).length := by
    simp [List.length_append]
    omega
  rw [scanMention_adequate _ post le_rfl _ hrest]
  simp

theorem g_hash_table_add_not_mem (sent : List String) (mid : String)
    (h : mid ∉ sent) : g_hash_table_add sent mid = mid :: sent := by
  simp [g_hash_table_add, h]

theorem parse_incoming_msg_isSome (pid own : String)
    (members : List (String × ChatMember)) (node : Json) (t : Int)
    (content sender : String) (hc : parseStr node "Content" = some content)
    (hs : parseStr node "Sender" = some sender) :
    (parse_incoming_msg pid own members node t).isSome = true := by
  simp [parse_incoming_msg, hc, hs]

theorem send_msg_cb_records (pid own : String)
    (members : List (String × ChatMember)) (sent : List String)
    (status : Nat) (node msgnode : Json) (mid : String) (now : Int)
    (lastSeen : Option String) (hsucc : soupSuccessful status = true)
    (hmsg : getMember node "Message" = some msgnode)
    (hmid : parseStr msgnode "MessageId" = some mid)
    (hseen : seenAtLeast lastSeen (createdTv msgnode now) = false) :
    send_msg_cb pid own members sent status node now lastSeen =
      ⟨g_hash_table_add sent mid,
        parse_incoming_msg pid own members msgnode (createdTv msgnode now).1,
        false⟩ := by
  simp [send_msg_cb, hsucc, hmsg, hseen, hmid]

theorem chat_deliver_msg_suppresses (pid own : String)
    (members : List (String × ChatMember)) (sent : List String)
    (record : Json) (mid : String) (t : Int)
    (hmid : parseStr record "MessageId" = some mid) (hmem : mid ∈ sent) :
    chat_deliver_msg pid own members sent record t = (sent.erase mid, none) := by
  simp [chat_deliver_msg, hmid, hmem]

theorem chat_deliver_msg_delivers (pid own : String)
    (members : List (String × ChatMember)) (sent : List String)
    (record : Json) (mid : String) (t : Int)
    (hmid : parseStr record "MessageId" = some mid) (hmem : mid ∉ sent) :
    chat_deliver_msg pid own members sent record t =
      (sent, parse_incoming_msg pid own members record t) := by
  simp [chat_deliver_msg, hmid, hmem]

theorem fetch_members_cb_complete (chat : ChimeChat) (node : Json) (hnd : Nat)
    (out : MembersCbOut) (hf : fetch_members_cb chat node hnd = some out)
    (hc : out.completeCalled = true) :
    out.members_done = true ∧ chat.msgs.msgs_done = true := by
  simp only [fetch_members_cb] at hf
  cases hg : getMember node "RoomMemberships" with
  | none => simp [hg] at hf
  | some j =>
    simp only [hg] at hf
    cases j with
    | jarr arr =>
      cases ht : parseStr node "NextToken" with
      | some t =>
        simp only [ht] at hf
        injection hf with h'
        subst h'
        simp at hc
      | none =>
        simp only [ht] at hf
        injection hf with h'
        subst h'
        exact ⟨rfl, hc⟩
    | jnull => simp at hf
    | jbool b => simp at hf
    | jnum n => simp at hf
    | jstr s => simp at hf
    | jobj ms => simp at hf

/-! ## Claims -/

/-- C10: `parse_string(parent, name, res)` is total and atomic on
failure — it returns TRUE exactly when `parent` is a JSON object with a
string-valued member `name`, it sets `*res` to that member's string on
success, and on any failure (NULL parent, non-object parent, missing or
non-string member) it returns FALSE leaving `*res` unmodified. -/
theorem C10_parse_string_total_atomic :
    ∀ (parent : Option Json) (name res : String),
      ((parse_string parent name res).1 = false →
        (parse_string parent name res).2 = res) ∧
      ((parse_string parent name res).1 = true ↔
        ∃ ms s, parent = some (Json.jobj ms) ∧
          json_object_get_member ms name = some (Json.jstr s)) ∧
      (∀ ms s, parent = some (Json.jobj ms) →
        json_object_get_member ms name = some (Json.jstr s) →
        (parse_string parent name res).2 = s) := by
  intro parent name res
  refine ⟨?_, ?_, ?_⟩
  · cases parent with
    | none => intro _; rfl
    | some p =>
      cases p with
      | jobj ms =>
        simp only [parse_string, json_node_get_object]
        cases json_object_get_member ms name with
        | none => intro _; rfl
        | some node => cases node <;> simp [json_node_get_string]
      | jnull => intro _; rfl
      | jbool b => intro _; rfl
      | jnum n => intro _; rfl
      | jstr s => intro _; rfl
      | jarr xs => intro _; rfl
  · cases parent with
    | none =>
      simp only [parse_string]
      constructor
      · intro h; cases h
      · rintro ⟨ms, s, h, -⟩; cases h
    | some p =>
      cases p with
      | jobj ms =>
        simp only [parse_string, json_node_get_object]
        cases hm : json_object_get_member ms name with
        | none =>
          constructor
          · intro h; cases h
          · rintro ⟨ms', s, h, hmem⟩
            cases h
            rw [hm] at hmem; cases hmem
        | some node =>
          cases node with
          | jstr s =>
            constructor
            · intro _; exact ⟨ms, s, rfl, hm⟩
            · intro _; rfl
          | jnull =>
            constructor
            · intro h; cases h
            · rintro ⟨ms', s, h, hmem⟩; cases h; rw [hm] at hmem; cases hmem
          | jbool b =>
            constructor
            · intro h; cases h
            · rintro ⟨ms', s, h, hmem⟩; cases h; rw [hm] at hmem; cases hmem
          | jnum n =>
            constructor
            · intro h; cases h
            · rintro ⟨ms', s, h, hmem⟩; cases h; rw [hm] at hmem; cases hmem
          | jarr xs =>
            constructor
            · intro h; cases h
            · rintro ⟨ms', s, h, hmem⟩; cases h; rw [hm] at hmem; cases hmem
          | jobj ms2 =>
            constructor
            · intro h; cases h
            · rintro ⟨ms', s, h, hmem⟩; cases h; rw [hm] at hmem; cases hmem
      | jnull =>
        constructor
        · intro h; cases h
        · rintro ⟨ms, s, h, -⟩; cases h
      | jbool b =>
        constructor
        · intro h; cases h
        · rintro ⟨ms, s, h, -⟩; cases h
      | jnum n =>
        constructor
        · intro h; cases h
        · rintro ⟨ms, s, h, -⟩; cases h
      | jstr s =>
        constructor
        · intro h; cases h
        · rintro ⟨ms, s, h, -⟩; cases h
      | jarr xs =>
        constructor
        · intro h; cases h
        · rintro ⟨ms, s, h, -⟩; cases h
  · rintro ms s rfl hmem
    simp [parse_string, json_node_get_object, hmem, json_node_get_string]

/-- Witness for C10 at concrete inputs: a present string member is
returned; a missing member leaves the out-parameter untouched. -/
theorem C10_witness :
    (parse_string (some (Json.jobj [("SessionToken", Json.jstr "tok")]))
        "SessionToken" "prev").2 = "tok" ∧
      (parse_string (some (Json.jobj [])) "SessionToken" "prev").2 = "prev" :=
  ⟨(C10_parse_string_total_atomic
        (some (Json.jobj [("SessionToken", Json.jstr "tok")])) "SessionToken"
        "prev").2.2 [("SessionToken", Json.jstr "tok")] "tok" rfl rfl,
    (C10_parse_string_total_atomic (some (Json.jobj [])) "SessionToken"
        "prev").1 (by decide)⟩

/-- C7: `do_join_chat` is idempotent — joining an already-joined room
returns the existing chat with the connection state unchanged (no new
conversation id, tables, subscriptions or fetch requests), and a second
join right after a first one returns the first join's chat with the
state left exactly as the first join made it. -/
theorem C7_join_idempotent :
    (∀ (priv : ConnState) (room : Room) (chat : ChimeChat),
      tblLookup priv.chats_by_room room.id = some chat →
      do_join_chat priv (some room) = (priv, some chat)) ∧
    (∀ (priv : ConnState) (room : Room),
      tblLookup priv.chats_by_room room.id = none →
      do_join_chat (do_join_chat priv (some room)).1 (some room) =
        ((do_join_chat priv (some room)).1, (do_join_chat priv (some room)).2)) := by
  constructor
  · intro priv room chat h
    simp [do_join_chat, h]
  · intro priv room h
    simp only [do_join_chat, h]
    rw [tblLookup_self _ _ _ h]

/-- Witness for C7 at a concrete state: re-joining returns the recorded
chat without touching the state. -/
theorem C7_witness :
    do_join_chat
        ⟨1,
          [(1, ⟨"r1", 1, ⟨some [], false, false, some 0⟩, [], [], some 1⟩)],
          [("r1", ⟨"r1", 1, ⟨some [], false, false, some 0⟩, [], [], some 1⟩)],
          [], [], 2⟩
        (some ⟨"r1", "Room One", "ch1"⟩) =
      (⟨1,
          [(1, ⟨"r1", 1, ⟨some [], false, false, some 0⟩, [], [], some 1⟩)],
          [("r1", ⟨"r1", 1, ⟨some [], false, false, some 0⟩, [], [], some 1⟩)],
          [], [], 2⟩,
        some ⟨"r1", 1, ⟨some [], false, false, some 0⟩, [], [], some 1⟩) :=
  C7_join_idempotent.1 _ ⟨"r1", "Room One", "ch1"⟩ _ rfl

/-- C3: for a burst of requests that all hit an auth failure before any
renewal completes, exactly one renewal call is issued, the queue holds
them in original FIFO order, and a successful renewal stores the new
token and re-issues every parked request exactly once, in order, each
with the one cookie header computed from the new token. -/
theorem C3_renewal_fifo :
    ∀ (r : Nat) (rs : List Nat) (body : Json) (tok : String),
      parseStr body "SessionToken" = some tok →
      (resubmitAll ([], 0) (r :: rs)).2 = 1 ∧
      (resubmitAll ([], 0) (r :: rs)).1 = r :: rs ∧
      renew_cb 200 (some "application/json") (some body) (r :: rs) =
        ⟨false, some tok, [],
          (r :: rs).map fun q => (q, "_aws_wt_session=" ++ tok), []⟩ := by
  intro r rs body tok htok
  refine ⟨by rw [resubmitAll_from_empty], by rw [resubmitAll_from_empty], ?_⟩
  simp only [renew_cb]
  rw [show process_soup_response 200 (some "application/json") (some body) =
    .ok body from rfl]
  simp [htok, flushQueue_eq_map]

/-- Witness for C3: three queued requests, one renewal response carrying
a SessionToken. -/
theorem C3_witness :
    (resubmitAll ([], 0) [1, 2, 3]).2 = 1 ∧
      (resubmitAll ([], 0) [1, 2, 3]).1 = [1, 2, 3] ∧
      renew_cb 200 (some "application/json")
          (some (Json.jobj [("SessionToken", Json.jstr "T2")])) [1, 2, 3] =
        ⟨false, some "T2", [],
          [(1, "_aws_wt_session=T2"), (2, "_aws_wt_session=T2"),
            (3, "_aws_wt_session=T2")], []⟩ :=
  C3_renewal_fifo 1 [2, 3] (Json.jobj [("SessionToken", Json.jstr "T2")]) "T2"
    (by decide)

/-- C5 counterexample: on a failed renewal response (here status 500)
the connection goes fatal, but the queued request is NOT completed with
failure — it stays parked in the queue and no completion is delivered,
contradicting the claim that every queued request is completed with
failure. -/
theorem C5_counterexample :
    (renew_cb 500 none none [7]).fatal = true ∧
      (renew_cb 500 none none [7]).queue = [7] ∧
      ¬(renew_cb 500 none none [7]).failedCompletions = [7] := by
  refine ⟨rfl, rfl, ?_⟩
  decide

/-- C5 (amended): whenever the renewal response fails
(`process_soup_response` error: bad status, wrong content type,
malformed JSON) or lacks a SessionToken, the connection transitions to a
fatal error state; the requests parked in the pending-renewal queue are
left there uncompleted — none is re-issued and none is completed with
failure. -/
theorem C5_renewal_failure_fatal :
    ∀ (status : Nat) (ct : Option String) (body : Option Json)
      (queue : List Nat),
      (∀ node, process_soup_response status ct body = .ok node →
        parseStr node "SessionToken" = none) →
      renew_cb status ct body queue = ⟨true, none, queue, [], []⟩ := by
  intro status ct body queue h
  cases hp : process_soup_response status ct body with
  | error e => simp [renew_cb, hp]
  | ok node => simp [renew_cb, hp, h node hp]

/-- Witness for C5's amended theorem at the counterexample input. -/
theorem C5_witness :
    renew_cb 500 none none [7] = ⟨true, none, [7], [], []⟩ :=
  C5_renewal_failure_fatal 500 none none [7] (fun _ h => nomatch h)

/-- C1: a message id recorded in the sent-message dedup table by a
successful local send makes the next live event with that MessageId be
suppressed from host delivery, removing the id from the table; the host
receives exactly one delivery of the id (the optimistic local echo), and
a later message reusing an id no longer in the table is delivered
normally. -/
theorem C1_dedup_exactly_once :
    (∀ (pid own : String) (members : List (String × ChatMember))
       (sent : List String) (status : Nat) (node msgnode : Json)
       (mid : String) (now : Int) (lastSeen : Option String),
      soupSuccessful status = true →
      getMember node "Message" = some msgnode →
      parseStr msgnode "MessageId" = some mid →
      seenAtLeast lastSeen (createdTv msgnode now) = false →
      mid ∈ (send_msg_cb pid own members sent status node now lastSeen).sent_msgs ∧
        (send_msg_cb pid own members sent status node now lastSeen).echoed =
          parse_incoming_msg pid own members msgnode (createdTv msgnode now).1) ∧
    (∀ (pid own : String) (members : List (String × ChatMember))
       (sent : List String) (record : Json) (mid : String) (t : Int),
      parseStr record "MessageId" = some mid → mid ∈ sent →
      chat_deliver_msg pid own members sent record t = (sent.erase mid, none)) ∧
    (∀ (pid own : String) (members : List (String × ChatMember))
       (sent : List String) (record : Json) (mid : String) (t : Int),
      parseStr record "MessageId" = some mid → mid ∉ sent →
      chat_deliver_msg pid own members sent record t =
        (sent, parse_incoming_msg pid own members record t)) ∧
    (∀ (pid own : String) (members : List (String × ChatMember))
       (sent₀ : List String) (status : Nat) (node msgnode record record2 : Json)
       (mid : String) (now t t2 : Int) (lastSeen : Option String)
       (content sender : String),
      soupSuccessful status = true →
      getMember node "Message" = some msgnode →
      parseStr msgnode "MessageId" = some mid →
      parseStr msgnode "Content" = some content →
      parseStr msgnode "Sender" = some sender →
      seenAtLeast lastSeen (createdTv msgnode now) = false →
      mid ∉ sent₀ →
      parseStr record "MessageId" = some mid →
      parseStr record2 "MessageId" = some mid →
      (send_msg_cb pid own members sent₀ status node now lastSeen).echoed.isSome
          = true ∧
        chat_deliver_msg pid own members
            (send_msg_cb pid own members sent₀ status node now lastSeen).sent_msgs
            record t = (sent₀, none) ∧
        chat_deliver_msg pid own members sent₀ record2 t2 =
          (sent₀, parse_incoming_msg pid own members record2 t2)) := by
  refine ⟨?_, ?_, ?_, ?_⟩
  · intro pid own members sent status node msgnode mid now lastSeen hsucc hmsg
      hmid hseen
    rw [send_msg_cb_records pid own members sent status node msgnode mid now
      lastSeen hsucc hmsg hmid hseen]
    refine ⟨?_, rfl⟩
    by_cases h : mid ∈ sent <;> simp [g_hash_table_add, h]
  · exact chat_deliver_msg_suppresses
  · exact chat_deliver_msg_delivers
  · intro pid own members sent₀ status node msgnode record record2 mid now t t2
      lastSeen content sender hsucc hmsg hmid hcontent hsender hseen hnot hrec
      hrec2
    rw [send_msg_cb_records pid own members sent₀ status node msgnode mid now
      lastSeen hsucc hmsg hmid hseen]
    refine ⟨parse_incoming_msg_isSome pid own members msgnode _ content sender
      hcontent hsender, ?_, ?_⟩
    · rw [g_hash_table_add_not_mem sent₀ mid hnot,
        chat_deliver_msg_suppresses pid own members (mid :: sent₀) record mid t
          hrec (List.mem_cons_self mid sent₀),
        List.erase_cons_head]
    · exact chat_deliver_msg_delivers pid own members sent₀ record2 mid t2
        hrec2 hnot

/-- Witness for C1: a concrete send response inserts id "m1"; the live
echo is suppressed and removes it; a later reuse of "m1" is delivered. -/
theorem C1_witness :
    (send_msg_cb "me" "Me" []
          [] 200
          (Json.jobj [("Message",
            Json.jobj [("MessageId", Json.jstr "m1"),
              ("CreatedOn", Json.jstr "100"), ("Content", Json.jstr "hi"),
              ("Sender", Json.jstr "me")])])
          99 none).echoed.isSome = true ∧
      chat_deliver_msg "me" "Me" []
          (send_msg_cb "me" "Me" [] [] 200
            (Json.jobj [("Message",
              Json.jobj [("MessageId", Json.jstr "m1"),
                ("CreatedOn", Json.jstr "100"), ("Content", Json.jstr "hi"),
                ("Sender", Json.jstr "me")])])
            99 none).sent_msgs
          (Json.jobj [("MessageId", Json.jstr "m1"),
            ("Content", Json.jstr "hi"), ("Sender", Json.jstr "me")])
          100 = ([], none) ∧
      chat_deliver_msg "me" "Me" [] []
          (Json.jobj [("MessageId", Json.jstr "m1"),
            ("Content", Json.jstr "later"), ("Sender", Json.jstr "me")])
          200 =
        ([],
          parse_incoming_msg "me" "Me" []
            (Json.jobj [("MessageId", Json.jstr "m1"),
              ("Content", Json.jstr "later"), ("Sender", Json.jstr "me")])
            200) :=
  C1_dedup_exactly_once.2.2.2 "me" "Me" [] [] 200
    (Json.jobj [("Message",
      Json.jobj [("MessageId", Json.jstr "m1"), ("CreatedOn", Json.jstr "100"),
        ("Content", Json.jstr "hi"), ("Sender", Json.jstr "me")])])
    (Json.jobj [("MessageId", Json.jstr "m1"), ("CreatedOn", Json.jstr "100"),
      ("Content", Json.jstr "hi"), ("Sender", Json.jstr "me")])
    (Json.jobj [("MessageId", Json.jstr "m1"), ("Content", Json.jstr "hi"),
      ("Sender", Json.jstr "me")])
    (Json.jobj [("MessageId", Json.jstr "m1"), ("Content", Json.jstr "later"),
      ("Sender", Json.jstr "me")])
    "m1" 99 100 200 none "hi" "me" rfl rfl rfl rfl rfl rfl (by decide) rfl rfl

/-- C2: a live message event carrying a record with a MessageId that
arrives while the in-progress buffer exists is inserted into the buffer
keyed by its id and never delivered immediately; any immediate delivery
implies the buffer was already gone, and with the buffer gone a live
event passes straight through `chat_deliver_msg` while recording the
last-seen stamp. -/
theorem C2_live_event_buffering :
    (∀ (pid own : String) (chat : ChimeChat) (buf : List (String × Json))
       (data record : Json) (mid : String),
      chat.msgs.messages = some buf →
      getMember data "record" = some record →
      parseStr record "MessageId" = some mid →
      chat_msg_jugg_cb pid own chat data =
        ⟨true, some (g_hash_table_insert buf mid record), chat.sent_msgs,
          none, none⟩) ∧
    (∀ (pid own : String) (chat : ChimeChat) (data : Json),
      (chat_msg_jugg_cb pid own chat data).delivered ≠ none →
      chat.msgs.messages = none) ∧
    (∀ (pid own : String) (chat : ChimeChat) (data record : Json)
       (mid ts : String) (tv : Int × Int),
      chat.msgs.messages = none →
      getMember data "record" = some record →
      parseStr record "MessageId" = some mid →
      parse_time record "CreatedOn" = some (ts, tv) →
      (chat_msg_jugg_cb pid own chat data).delivered =
          (chat_deliver_msg pid own chat.members chat.sent_msgs record tv.1).2 ∧
        (chat_msg_jugg_cb pid own chat data).lastMsgWrite = some (ts, mid)) := by
  refine ⟨?_, ?_, ?_⟩
  · intro pid own chat buf data record mid hbuf hrec hmid
    simp [chat_msg_jugg_cb, hbuf, hrec, hmid]
  · intro pid own chat data h
    simp only [chat_msg_jugg_cb] at h
    cases hrec : getMember data "record" with
    | none => simp [hrec] at h
    | some record =>
      simp only [hrec] at h
      cases hmid : parseStr record "MessageId" with
      | none => simp [hmid] at h
      | some mid =>
        simp only [hmid] at h
        cases hbuf : chat.msgs.messages with
        | some buf => simp [hbuf] at h
        | none => rfl
  · intro pid own chat data record mid ts tv hbuf hrec hmid htime
    simp [chat_msg_jugg_cb, hbuf, hrec, hmid, htime]

/-- Witness for C2: a concrete event is buffered, not delivered, while
the buffer exists. -/
theorem C2_witness :
    chat_msg_jugg_cb "me" "Me"
        ⟨"r1", 1, ⟨some [], false, false, some 0⟩, [], [], some 1⟩
        (Json.jobj [("record",
          Json.jobj [("MessageId", Json.jstr "m9"),
            ("CreatedOn", Json.jstr "50")])]) =
      ⟨true,
        some [("m9",
          Json.jobj [("MessageId", Json.jstr "m9"),
            ("CreatedOn", Json.jstr "50")])],
        [], none, none⟩ :=
  C2_live_event_buffering.1 "me" "Me"
    ⟨"r1", 1, ⟨some [], false, false, some 0⟩, [], [], some 1⟩ []
    (Json.jobj [("record",
      Json.jobj [("MessageId", Json.jstr "m9"), ("CreatedOn", Json.jstr "50")])])
    (Json.jobj [("MessageId", Json.jstr "m9"), ("CreatedOn", Json.jstr "50")])
    "m9" rfl rfl rfl

/-- C4: a room is declared ready (`chime_complete_messages`) only once
both the historical fetch and the membership fetch have exhausted their
pages; membership pages ask for 50 members and follow NextToken until it
is absent; and the gating holds when the message fetch finishes first
(including with zero historical messages): exhausting messages with the
membership fetch still running does not make the room ready. -/
theorem C4_ready_gating :
    (∀ (st : RoomSync) (ev : RoomEv) (st' : RoomSync),
      roomStep st ev = some st' → st.ready = false → st'.ready = true →
      st'.chat.msgs.msgs_done = true ∧ st'.chat.msgs.members_done = true) ∧
    (∀ (roomId t : String),
      (fetch_chat_memberships roomId (some t)).query =
          [("max-results", "50"), ("next-token", t)] ∧
        (fetch_chat_memberships roomId none).query = [("max-results", "50")]) ∧
    (∀ (chat : ChimeChat) (node : Json) (hnd : Nat) (arr : List Json)
       (t : String),
      getMember node "RoomMemberships" = some (.jarr arr) →
      parseStr node "NextToken" = some t →
      ∃ out, fetch_members_cb chat node hnd = some out ∧
        out.nextRequest = some (fetch_chat_memberships chat.id (some t)) ∧
        out.completeCalled = false ∧
        out.members_done = chat.msgs.members_done) ∧
    (∀ (chat : ChimeChat) (node : Json) (hnd : Nat) (arr : List Json),
      getMember node "RoomMemberships" = some (.jarr arr) →
      parseStr node "NextToken" = none →
      ∃ out, fetch_members_cb chat node hnd = some out ∧
        out.members_done = true ∧ out.nextRequest = none ∧
        out.completeCalled = chat.msgs.msgs_done) ∧
    (∀ (st : RoomSync), st.ready = false → st.chat.msgs.members_done = false →
      ∃ st', roomStep st .msgsExhausted = some st' ∧ st'.ready = false ∧
        st'.chat.msgs.msgs_done = true) := by
  refine ⟨?_, ?_, ?_, ?_, ?_⟩
  · intro st ev st' hstep hnr hr
    cases ev with
    | msgsExhausted =>
      simp only [roomStep, msgs_fetch_exhausted] at hstep
      injection hstep with h'
      subst h'
      simp only [hnr, Bool.false_or] at hr
      exact ⟨rfl, hr⟩
    | memberPage node hnd =>
      simp only [roomStep] at hstep
      cases hf : fetch_members_cb st.chat node hnd with
      | none => simp [hf] at hstep
      | some out =>
        simp only [hf] at hstep
        injection hstep with h'
        subst h'
        simp only [hnr, Bool.false_or] at hr
        have := fetch_members_cb_complete st.chat node hnd out hf hr
        exact ⟨this.2, this.1⟩
  · intro roomId t
    exact ⟨rfl, rfl⟩
  · intro chat node hnd arr t hg ht
    exact ⟨{ members := arr.foldl (fun ms n => (add_chat_member ms n).1) chat.members,
             members_msg := some hnd, members_done := chat.msgs.members_done,
             nextRequest := some (fetch_chat_memberships chat.id (some t)),
             completeCalled := false },
      by simp [fetch_members_cb, hg, ht], rfl, rfl, rfl⟩
  · intro chat node hnd arr hg ht
    exact ⟨{ members := arr.foldl (fun ms n => (add_chat_member ms n).1) chat.members,
             members_msg := none, members_done := true,
             nextRequest := none, completeCalled := chat.msgs.msgs_done },
      by simp [fetch_members_cb, hg, ht], rfl, rfl, rfl⟩
  · intro st h1 h2
    exact ⟨_, rfl, by simp [roomStep, msgs_fetch_exhausted, h1, h2], rfl⟩

/-- Witness for C4: the final membership page (no NextToken) of a room
whose message fetch already finished (zero historical messages) makes
the room ready. -/
theorem C4_witness :
    ∃ out,
      fetch_members_cb ⟨"r1", 1, ⟨none, true, false, none⟩, [], [], some 5⟩
          (Json.jobj [("RoomMemberships", Json.jarr [])]) 6 = some out ∧
        out.members_done = true ∧ out.nextRequest = none ∧
        out.completeCalled =
          (⟨"r1", 1, ⟨none, true, false, none⟩, [], [],
              some 5⟩ : ChimeChat).msgs.msgs_done :=
  C4_ready_gating.2.2.2.1 ⟨"r1", 1, ⟨none, true, false, none⟩, [], [], some 5⟩
    (Json.jobj [("RoomMemberships", Json.jarr [])]) 6 [] rfl rfl

/-- C6: after `chime_destroy_chat` on a room whose history or membership
fetch is in flight, the room's RoomMessage and RoomMembership
subscriptions are gone (so juggernaut dispatch invokes no callback with
that room's context), and the in-flight request handles are cancelled so
their completion callbacks are suppressed as no-ops. -/
theorem C6_leave_cancels :
    ∀ (priv : ConnState) (chat : ChimeChat) (channel : String),
      priv.subs.count ⟨channel, "RoomMessage", .roomMsg, chat.id⟩ ≤ 1 →
      priv.subs.count ⟨channel, "RoomMembership", .roomMembership, chat.id⟩ ≤ 1 →
      (∀ s ∈ priv.subs, s.ctx = chat.id →
        s = ⟨channel, "RoomMessage", .roomMsg, chat.id⟩ ∨
          s = ⟨channel, "RoomMembership", .roomMembership, chat.id⟩) →
      (∀ s ∈ (chime_destroy_chat priv chat channel).subs, s.ctx ≠ chat.id) ∧
        (∀ ch ty s,
          s ∈ jugg_dispatch (chime_destroy_chat priv chat channel).subs ch ty →
          s.ctx ≠ chat.id) ∧
        (∀ hnd, chat.msgs.soup_msg = some hnd ∨ chat.members_msg = some hnd →
          http_callback_delivered (chime_destroy_chat priv chat channel).cancelled
            hnd = false) := by
  intro priv chat channel hc1 hc2 hctx
  have hne12 : (⟨channel, "RoomMessage", .roomMsg, chat.id⟩ : Sub) ≠
      ⟨channel, "RoomMembership", .roomMembership, chat.id⟩ := by
    intro h
    injection h with _ h2 _ _
    exact absurd h2 (by decide)
  have hsubs : (chime_destroy_chat priv chat channel).subs =
      (priv.subs.erase ⟨channel, "RoomMessage", .roomMsg, chat.id⟩).erase
        ⟨channel, "RoomMembership", .roomMembership, chat.id⟩ := by
    simp only [chime_destroy_chat, chime_jugg_unsubscribe]
  have hnot1 : (⟨channel, "RoomMessage", .roomMsg, chat.id⟩ : Sub) ∉
      (chime_destroy_chat priv chat channel).subs := by
    rw [hsubs, ← List.count_eq_zero,
      List.count_erase_of_ne hne12, List.count_erase_self]
    omega
  have hnot2 : (⟨channel, "RoomMembership", .roomMembership, chat.id⟩ : Sub) ∉
      (chime_destroy_chat priv chat channel).subs := by
    rw [hsubs, ← List.count_eq_zero, List.count_erase_self,
      List.count_erase_of_ne (Ne.symm hne12)]
    omega
  have part1 : ∀ s ∈ (chime_destroy_chat priv chat channel).subs,
      s.ctx ≠ chat.id := by
    intro s hs hceq
    have hsE := hsubs ▸ hs
    have hsubm : s ∈ priv.subs :=
      List.erase_subset _ _ (List.erase_subset _ _ hsE)
    rcases hctx s hsubm hceq with rfl | rfl
    · exact hnot1 hs
    · exact hnot2 hs
  refine ⟨part1, ?_, ?_⟩
  · intro ch ty s hs
    exact part1 s (List.mem_filter.1 hs).1
  · intro hnd h
    have hmem : hnd ∈ (chime_destroy_chat priv chat channel).cancelled := by
      rcases h with h | h
      · simp only [chime_destroy_chat, h]
        cases chat.members_msg <;> simp
      · simp only [chime_destroy_chat, h]
        cases chat.msgs.soup_msg <;> simp
    simp [http_callback_delivered, hmem]

/-- Witness for C6 at a concrete state: after leaving, the in-flight
history request's callback is suppressed. -/
theorem C6_witness :
    http_callback_delivered
        (chime_destroy_chat
          ⟨1, [], [],
            [⟨"ch1", "RoomMessage", .roomMsg, "r1"⟩,
              ⟨"ch1", "RoomMembership", .roomMembership, "r1"⟩],
            [], 2⟩
          ⟨"r1", 1, ⟨some [], false, false, some 0⟩, [], [], some 1⟩
          "ch1").cancelled 0 = false :=
  (C6_leave_cancels
      ⟨1, [], [],
        [⟨"ch1", "RoomMessage", .roomMsg, "r1"⟩,
          ⟨"ch1", "RoomMembership", .roomMembership, "r1"⟩],
        [], 2⟩
      ⟨"r1", 1, ⟨some [], false, false, some 0⟩, [], [], some 1⟩ "ch1"
      (by decide) (by decide) (by decide)).2.2 0 (Or.inl rfl)

/-- C8 counterexample: the response `o:s:h:xhr,websocket` splits into the
four expected fields and carries `websocket` in the comma-separated
transport list, yet `ws_cb` raises a connection error instead of
attempting the upgrade, because `strncmp(ws_opts[3], "websocket,", 10)`
demands that the transport list literally start with `websocket,`. -/
theorem C8_counterexample :
    ws_cb 200 (some "o:s:h:xhr,websocket") = .connError ∧
      g_strsplitS "o:s:h:xhr,websocket" ":" 4 =
        ["o", "s", "h", "xhr,websocket"] ∧
      "websocket" ∈ g_strsplitS "xhr,websocket" "," 0 := by
  refine ⟨rfl, rfl, ?_⟩
  decide

/-- C8 (amended): for a success-status negotiation response, the upgrade
is attempted if and only if the body splits on `:` into four fields
(the fourth keeping the unsplit remainder) and the fourth field begins
with `websocket,` — i.e. `websocket` is the first entry of the transport
list and is followed by a comma; any other success response yields a
connection error, and an attempted upgrade always carries `websocket` as
the first negotiated protocol. -/
theorem C8_websocket_upgrade :
    ∀ d : String,
      (wsUpgradeOf (ws_cb 200 (some d)) = true ↔
        ∃ a b c rest : List Char,
          d.toList = a ++ ':' :: (b ++ ':' :: (c ++ ':' :: rest)) ∧
            ':' ∉ a ∧ ':' ∉ b ∧ ':' ∉ c ∧
            pfx "websocket,".toList rest = true) ∧
      (wsUpgradeOf (ws_cb 200 (some d)) = false →
        ws_cb 200 (some d) = .connError) ∧
      (∀ sess protos, ws_cb 200 (some d) = .upgrade sess protos →
        protos[0]? = some "websocket") := by
  intro d
  have hws : ws_cb 200 (some d) =
      (match (g_strsplitS d ":" 4)[1]?, (g_strsplitS d ":" 4)[2]?,
          (g_strsplitS d ":" 4)[3]? with
        | some p1, some _p2, some p3 =>
          if pfx "websocket,".toList p3.toList then
            WsAction.upgrade p1 (g_strsplitS p3 "," 0)
          else WsAction.connError
        | _, _, _ => WsAction.connError) := rfl
  refine ⟨⟨?_, ?_⟩, ?_, ?_⟩
  · -- upgrade implies the decomposition
    intro hup
    rw [hws] at hup
    cases h1 : (g_strsplitS d ":" 4)[1]? with
    | none => simp [h1, wsUpgradeOf] at hup
    | some p1 =>
      simp only [h1] at hup
      cases h2 : (g_strsplitS d ":" 4)[2]? with
      | none => simp [h2, wsUpgradeOf] at hup
      | some p2 =>
        simp only [h2] at hup
        cases h3 : (g_strsplitS d ":" 4)[3]? with
        | none => simp [h3, wsUpgradeOf] at hup
        | some p3 =>
          simp only [h3] at hup
          by_cases hpfx : pfx "websocket,".toList p3.toList = true
          · rw [g_strsplitS_colon, List.getElem?_map] at h3
            obtain ⟨l3, hl3, hmk⟩ := Option.map_eq_some'.1 h3
            cases hdl : d.toList with
            | nil => rw [hdl] at hl3; simp [g_strsplit] at hl3
            | cons c0 cs =>
              rw [hdl] at hl3
              have hglist : g_strsplit (c0 :: cs) [':'] 4 =
                  gSplitTokens [':'] 4 (c0 :: cs) := rfl
              rw [hglist] at hl3
              have hlt := (List.getElem?_eq_some.mp hl3).1
              obtain ⟨a, b, c, rest, hdec, hna, hnb, hnc, hparts⟩ :=
                gSplitTokens_four_inv ':' (c0 :: cs) (by omega)
              rw [hparts] at hl3
              have hrest : l3 = rest := by
                simp at hl3
                exact hl3.symm
              have hp3 : p3.toList = rest := by
                rw [← hmk, hrest]
                rfl
              refine ⟨a, b, c, rest, ?_, hna, hnb, hnc, ?_⟩
              · exact hdec
              · rw [← hp3]
                exact hpfx
          · rw [if_neg hpfx] at hup
            exact absurd hup (by decide)
  · -- the decomposition implies upgrade
    rintro ⟨a, b, c, rest, hdec, hna, hnb, hnc, hpfx⟩
    have hne : (a ++ ':' :: (b ++ ':' :: (c ++ ':' :: rest))).isEmpty = false := by
      cases a <;> rfl
    have hsplit : g_strsplit d.toList [':'] 4 = [a, b, c, rest] := by
      rw [hdec]
      simp only [g_strsplit, hne, Bool.false_eq_true, if_false]
      rw [if_neg (by decide : ¬(4 : Nat) = 0)]
      exact gSplitTokens_four ':' a b c rest hna hnb hnc
    have hparts : g_strsplitS d ":" 4 =
        [String.mk a, String.mk b, String.mk c, String.mk rest] := by
      rw [g_strsplitS_colon, hsplit]
      rfl
    rw [hws, hparts]
    simp only [List.getElem?_cons_succ, List.getElem?_cons_zero]
    have hpfx' : pfx "websocket,".toList (String.mk rest).toList = true := hpfx
    rw [if_pos hpfx']
    rfl
  · -- non-upgrade means connection error
    intro hf
    rw [hws] at hf ⊢
    cases h1 : (g_strsplitS d ":" 4)[1]? with
    | none => simp [h1]
    | some p1 =>
      simp only [h1] at hf ⊢
      cases h2 : (g_strsplitS d ":" 4)[2]? with
      | none => simp [h2]
      | some p2 =>
        simp only [h2] at hf ⊢
        cases h3 : (g_strsplitS d ":" 4)[3]? with
        | none => simp [h3]
        | some p3 =>
          simp only [h3] at hf ⊢
          by_cases hpfx : pfx "websocket,".toList p3.toList = true
          · rw [if_pos hpfx] at hf
            simp [wsUpgradeOf] at hf
          · rw [if_neg hpfx]
  · -- an upgrade carries websocket as the first protocol
    intro sess protos hupg
    rw [hws] at hupg
    cases h1 : (g_strsplitS d ":" 4)[1]? with
    | none => simp [h1] at hupg
    | some p1 =>
      simp only [h1] at hupg
      cases h2 : (g_strsplitS d ":" 4)[2]? with
      | none => simp [h2] at hupg
      | some p2 =>
        simp only [h2] at hupg
        cases h3 : (g_strsplitS d ":" 4)[3]? with
        | none => simp [h3] at hupg
        | some p3 =>
          simp only [h3] at hupg
          by_cases hpfx : pfx "websocket,".toList p3.toList = true
          · rw [if_pos hpfx] at hupg
            injection hupg with hs hp
            subst hp
            show ((g_strsplit p3.toList [','] 0).map String.mk)[0]? =
              some "websocket"
            rw [List.getElem?_map, g_strsplit_comma_head p3.toList hpfx]
            rfl
          · rw [if_neg hpfx] at hupg
            exact WsAction.noConfusion hupg

/-- C9 counterexample: with a member whose display name is
`All Members`, the outbound rewrite of the message `@all` is
`<@all|<@u1|All Members>>` — the member pass rewrites the text produced
by the earlier `@all` pass — so the occurrence of `@all` is not
rewritten to `<@all|All Members>` as the claim states. -/
theorem C9_counterexample :
    parse_outbound_mentions [("u1", "All Members")] "@all" =
        "<@all|<@u1|All Members>>" ∧
      ¬parse_outbound_mentions [("u1", "All Members")] "@all" =
        "<@all|All Members>" := by
  constructor
  · rfl
  · decide

/-- C9 (amended): outbound mention rewriting is sequential naive
substring replacement — `@all`, then `@present`, then each member over
the then-current text — so a later pass may rewrite an earlier pass's
output.  When the passes do not interfere, the per-occurrence claim
holds: (i) one replacement pass rewrites an occurrence of its pattern in
place, leaving pattern-free prefixes untouched; (ii) for a message free
of `@all`/`@present` with a single member, the outbound result is
exactly the member-name replacement producing `<@member-id|name>`; and
(iii) an inbound markup-escaped wire mention `<@id|Name>` with a
non-empty word-character id and an ampersand- and newline-free Name,
preceded by ampersand-free text, is rewritten for display to `Name` in
bold. -/
theorem C9_mention_rewriting :
    (∀ (c0 : Char) (p' x y rep : List Char), c0 ∉ x →
      replaceL (x ++ (c0 :: p') ++ y) (c0 :: p') rep =
        x ++ rep ++ replaceL y (c0 :: p') rep) ∧
    (∀ (mid name msg : String), name ≠ "" →
      containsSub msg "@all" = false → containsSub msg "@present" = false →
      parse_outbound_mentions [(mid, name)] msg =
        replaceS msg name ("<@" ++ mid ++ "|" ++ name ++ ">")) ∧
    (∀ (pid pre mid name post : String),
      (∀ ch ∈ pre.toList, ch ≠ '&') → mid.toList ≠ [] →
      (∀ ch ∈ mid.toList, wordChar ch = true) →
      (∀ ch ∈ name.toList, ch ≠ '&' ∧ ch ≠ '\n') →
      (parse_inbound_mentions pid
          (pre ++ "&lt;@" ++ mid ++ "|" ++ name ++ "&gt;" ++ post)).2 =
        pre ++ "<b>" ++ name ++ "</b>" ++ inboundSub post) := by
  refine ⟨replaceL_at, ?_, ?_⟩
  · intro mid name msg _hname h1 h2
    show replaceS
        (replaceS (replaceS msg "@all" "<@all|All Members>")
          "@present" "<@present|Present Members>")
        name ("<@" ++ mid ++ "|" ++ name ++ ">") = _
    rw [replaceS_no_occ msg "@all" _ h1, replaceS_no_occ msg "@present" _ h2]
  · intro pid pre mid name post hpre hmid hmw hname
    apply String.ext
    show scanMention
        (pre ++ "&lt;@" ++ mid ++ "|" ++ name ++ "&gt;" ++ post).toList.length
        (pre ++ "&lt;@" ++ mid ++ "|" ++ name ++ "&gt;" ++ post).toList = _
    have hM : (pre ++ "&lt;@" ++ mid ++ "|" ++ name ++ "&gt;" ++ post).toList =
        pre.toList ++ ("&lt;@".toList ++
          (mid.toList ++ '|' :: (name.toList ++
            ("&gt;".toList ++ post.toList)))) := by
      simp [String.toList, String.data_append, List.append_assoc]
    rw [hM, scan_full pre.toList mid.toList name.toList post.toList hpre hmid
      hmw hname]
    show _ = (pre ++ "<b>" ++ name ++ "</b>" ++ inboundSub post).data
    simp [String.data_append, List.append_assoc, inboundSub]

/-- Witness for C9's amended theorem: a plain single-member outbound
message and the spec's inbound example. -/
theorem C9_witness :
    parse_outbound_mentions [("u1", "Jane Doe")] "hi Jane Doe" =
        replaceS "hi Jane Doe" "Jane Doe" "<@u1|Jane Doe>" ∧
      (parse_inbound_mentions "me"
          ("x: " ++ "&lt;@" ++ "75f5" ++ "|" ++ "Jane Doe" ++ "&gt;" ++ "!")).2 =
        "x: " ++ "<b>" ++ "Jane Doe" ++ "</b>" ++ inboundSub "!" :=
  ⟨C9_mention_rewriting.2.1 "u1" "Jane Doe" "hi Jane Doe" (by decide)
      (by decide) (by decide),
    C9_mention_rewriting.2.2 "me" "x: " "75f5" "Jane Doe" "!" (by decide)
      (by decide) (by decide) (by decide)⟩

/-- Witness for C8: a body with `websocket` first in the transport list
upgrades; one with `websocket` elsewhere in the list yields a connection
error. -/
theorem C8_witness :
    wsUpgradeOf (ws_cb 200 (some "o:s:h:websocket,xhr")) = true ∧
      ws_cb 200 (some "o:s:h:xhr,websocket") = .connError :=
  ⟨(C8_websocket_upgrade "o:s:h:websocket,xhr").1.mpr
      ⟨"o".toList, "s".toList, "h".toList, "websocket,xhr".toList,
        by decide, by decide, by decide, by decide, by decide⟩,
    (C8_websocket_upgrade "o:s:h:xhr,websocket").2.1 (by decide)⟩

end Chime
